import Mathlib

/-!
Verification development for the kitty-rc-rs remote-control protocol client.

The Rust source is shallowly embedded:
* Rust byte strings (`Vec<u8>`, `&[u8]`, and the UTF-8 bytes of `String`)
  are modelled as `List Nat` values, each element one byte.
* `serde_json::Value` is modelled by the mutual inductive `Json` below.
  JSON numbers are restricted to integers (`Int`): floating-point payloads
  are outside the scope of this embedding.  JSON objects are modelled as
  field lists in serialization order; `serde_json`'s map (a `BTreeMap`)
  is reflected by key-lookup semantics (`jLookup`) and sorted insertion
  order where the source constructs fresh maps.
* Fallible Rust functions return `Except`/`Option`; operations that can
  panic in Rust (string slicing) return `Option`, `none` marking a panic.
-/

/-- Bytes of an ASCII string literal (every character below 0x80). -/
def asciiBytes (s : String) : List Nat := s.data.map (fun c => c.toNat)

/-- Decimal digit test on a byte. -/
def isDigitByte (b : Nat) : Bool := 48 ≤ b && b ≤ 57

/-- Lowercase hexadecimal digit for a value below 16 (as in serde_json's
and Rust's lower-hex formatting). -/
def hexDigitChar (m : Nat) : Nat := if m < 10 then 48 + m else 87 + m

/-- Value of a hexadecimal digit byte (either case), as in serde_json's
\u escape parsing. -/
def hexVal (c : Nat) : Option Nat :=
  if 48 ≤ c ∧ c ≤ 57 then some (c - 48)
  else if 97 ≤ c ∧ c ≤ 102 then some (c - 87)
  else if 65 ≤ c ∧ c ≤ 70 then some (c - 55)
  else none

/-- Decimal digits of a natural number, most significant first, written
with explicit fuel so that the definition reduces in the kernel. -/
def natDigitsAux : Nat → Nat → List Nat
  | 0, _ => []
  | fuel + 1, n =>
      if n < 10 then [48 + n] else natDigitsAux fuel (n / 10) ++ [48 + n % 10]

/-- Decimal digits of a natural number (the format! rendering of a Nat). -/
def natDigits (n : Nat) : List Nat := natDigitsAux (n + 1) n

/-- Lower-hex digits of a natural number, the format! {:x} rendering used
by KittyMessage::generate_unique_id. -/
def hexDigitsAux : Nat → Nat → List Nat
  | 0, _ => []
  | fuel + 1, n =>
      if n < 16 then [hexDigitChar n]
      else hexDigitsAux fuel (n / 16) ++ [hexDigitChar (n % 16)]

/-- Lower-hex rendering of a natural number. -/
def hexDigits (n : Nat) : List Nat := hexDigitsAux (n + 1) n

/-- Decimal rendering of an integer, as serde_json serializes an integer
JSON number. -/
def renderInt : Int → List Nat
  | .ofNat n => natDigits n
  | .negSucc m => 0x2D :: natDigits (m + 1)

/-- Continuation byte test (0x80..0xBF) of the UTF-8 encoding. -/
def contB (b : Nat) : Bool := 0x80 ≤ b && b ≤ 0xBF

mutual

/-- UTF-8 validity of a byte list, following the standard table used by
Rust's str::from_utf8 (shortest-form, surrogate-free).  The trailing
continuation bytes of a sequence are checked by vuTail2/vuTail3/vuTail4,
parameterized by the admissible range of the first trailing byte. -/
def validUtf8 : List Nat → Bool
  | [] => true
  | b :: r =>
    if b ≤ 0x7F then validUtf8 r
    else if 0xC2 ≤ b ∧ b ≤ 0xDF then vuTail2 0x80 0xBF r
    else if b = 0xE0 then vuTail3 0xA0 0xBF r
    else if (0xE1 ≤ b ∧ b ≤ 0xEC) ∨ b = 0xEE ∨ b = 0xEF then vuTail3 0x80 0xBF r
    else if b = 0xED then vuTail3 0x80 0x9F r
    else if b = 0xF0 then vuTail4 0x90 0xBF r
    else if 0xF1 ≤ b ∧ b ≤ 0xF3 then vuTail4 0x80 0xBF r
    else if b = 0xF4 then vuTail4 0x80 0x8F r
    else false

/-- One trailing byte in the range lo..hi, then a fresh character. -/
def vuTail2 (lo hi : Nat) : List Nat → Bool
  | c1 :: r2 => (lo ≤ c1 && c1 ≤ hi) && validUtf8 r2
  | [] => false

/-- One ranged trailing byte, then one plain continuation byte. -/
def vuTail3 (lo hi : Nat) : List Nat → Bool
  | c1 :: r2 => (lo ≤ c1 && c1 ≤ hi) && vuTail2 0x80 0xBF r2
  | [] => false

/-- One ranged trailing byte, then two plain continuation bytes. -/
def vuTail4 (lo hi : Nat) : List Nat → Bool
  | c1 :: r2 => (lo ≤ c1 && c1 ≤ hi) && vuTail3 0x80 0xBF r2
  | [] => false

end

/-- Replacement character U+FFFD as UTF-8 bytes. -/
def replacementBytes : List Nat := [0xEF, 0xBF, 0xBD]

/-- Model of Rust's String::from_utf8_lossy: invalid subsequences are
replaced with U+FFFD following the maximal-subpart policy (each
unexpected byte, or truncated/broken sequence prefix, yields one
replacement character). -/
def utf8Lossy : List Nat → List Nat
  | [] => []
  | b :: r =>
    if b ≤ 0x7F then b :: utf8Lossy r
    else if 0xC2 ≤ b ∧ b ≤ 0xDF then
      match r with
      | c1 :: r2 =>
          if contB c1 then b :: c1 :: utf8Lossy r2
          else replacementBytes ++ utf8Lossy (c1 :: r2)
      | [] => replacementBytes
    else if b = 0xE0 then
      match r with
      | c1 :: r2 =>
          if 0xA0 ≤ c1 ∧ c1 ≤ 0xBF then
            match r2 with
            | c2 :: r3 =>
                if contB c2 then b :: c1 :: c2 :: utf8Lossy r3
                else replacementBytes ++ utf8Lossy (c2 :: r3)
            | [] => replacementBytes
          else replacementBytes ++ utf8Lossy (c1 :: r2)
      | [] => replacementBytes
    else if (0xE1 ≤ b ∧ b ≤ 0xEC) ∨ b = 0xEE ∨ b = 0xEF then
      match r with
      | c1 :: r2 =>
          if contB c1 then
            match r2 with
            | c2 :: r3 =>
                if contB c2 then b :: c1 :: c2 :: utf8Lossy r3
                else replacementBytes ++ utf8Lossy (c2 :: r3)
            | [] => replacementBytes
          else replacementBytes ++ utf8Lossy (c1 :: r2)
      | [] => replacementBytes
    else if b = 0xED then
      match r with
      | c1 :: r2 =>
          if 0x80 ≤ c1 ∧ c1 ≤ 0x9F then
            match r2 with
            | c2 :: r3 =>
                if contB c2 then b :: c1 :: c2 :: utf8Lossy r3
                else replacementBytes ++ utf8Lossy (c2 :: r3)
            | [] => replacementBytes
          else replacementBytes ++ utf8Lossy (c1 :: r2)
      | [] => replacementBytes
    else if b = 0xF0 then
      match r with
      | c1 :: r2 =>
          if 0x90 ≤ c1 ∧ c1 ≤ 0xBF then
            match r2 with
            | c2 :: r3 =>
                if contB c2 then
                  match r3 with
                  | c3 :: r4 =>
                      if contB c3 then b :: c1 :: c2 :: c3 :: utf8Lossy r4
                      else replacementBytes ++ utf8Lossy (c3 :: r4)
                  | [] => replacementBytes
                else replacementBytes ++ utf8Lossy (c2 :: r3)
            | [] => replacementBytes
          else replacementBytes ++ utf8Lossy (c1 :: r2)
      | [] => replacementBytes
    else if 0xF1 ≤ b ∧ b ≤ 0xF3 then
      match r with
      | c1 :: r2 =>
          if contB c1 then
            match r2 with
            | c2 :: r3 =>
                if contB c2 then
                  match r3 with
                  | c3 :: r4 =>
                      if contB c3 then b :: c1 :: c2 :: c3 :: utf8Lossy r4
                      else replacementBytes ++ utf8Lossy (c3 :: r4)
                  | [] => replacementBytes
                else replacementBytes ++ utf8Lossy (c2 :: r3)
            | [] => replacementBytes
          else replacementBytes ++ utf8Lossy (c1 :: r2)
      | [] => replacementBytes
    else if b = 0xF4 then
      match r with
      | c1 :: r2 =>
          if 0x80 ≤ c1 ∧ c1 ≤ 0x8F then
            match r2 with
            | c2 :: r3 =>
                if contB c2 then
                  match r3 with
                  | c3 :: r4 =>
                      if contB c3 then b :: c1 :: c2 :: c3 :: utf8Lossy r4
                      else replacementBytes ++ utf8Lossy (c3 :: r4)
                  | [] => replacementBytes
                else replacementBytes ++ utf8Lossy (c2 :: r3)
            | [] => replacementBytes
          else replacementBytes ++ utf8Lossy (c1 :: r2)
      | [] => replacementBytes
    else replacementBytes ++ utf8Lossy r

/-- UTF-8 encoding of a Unicode scalar value (used by the model of
serde_json's \u escape handling). -/
def utf8Encode (n : Nat) : List Nat :=
  if n < 0x80 then [n]
  else if n < 0x800 then [0xC0 + n / 64, 0x80 + n % 64]
  else if n < 0x10000 then [0xE0 + n / 4096, 0x80 + n / 64 % 64, 0x80 + n % 64]
  else [0xF0 + n / 262144, 0x80 + n / 4096 % 64, 0x80 + n / 64 % 64, 0x80 + n % 64]

mutual

/-- Model of serde_json::Value, restricted to integer numbers.  Strings
and object keys carry the UTF-8 bytes of the Rust String. -/
inductive Json where
  | null : Json
  | bool (b : Bool) : Json
  | num (n : Int) : Json
  | str (s : List Nat) : Json
  | arr (elems : JsonList) : Json
  | obj (fields : JsonFields) : Json

/-- Element list of a JSON array (mutual with Json to allow structural
recursion over the nesting). -/
inductive JsonList where
  | nil : JsonList
  | cons (hd : Json) (tl : JsonList) : JsonList

/-- Field list of a JSON object, in serialization order. -/
inductive JsonFields where
  | nil : JsonFields
  | cons (key : List Nat) (val : Json) (tl : JsonFields) : JsonFields

end

/-- Byte-wise JSON string escaping as performed by serde_json's
serializer: quote, backslash, and the control characters below 0x20 are
escaped (the latter as the short escapes or lowercase \u00XX); every
other byte, including UTF-8 continuation bytes, is emitted verbatim. -/
def escapeByte (b : Nat) : List Nat :=
  if b = 0x22 then [0x5C, 0x22]
  else if b = 0x5C then [0x5C, 0x5C]
  else if b = 0x08 then [0x5C, 0x62]
  else if b = 0x09 then [0x5C, 0x74]
  else if b = 0x0A then [0x5C, 0x6E]
  else if b = 0x0C then [0x5C, 0x66]
  else if b = 0x0D then [0x5C, 0x72]
  else if b < 0x20 then [0x5C, 0x75, 0x30, 0x30, hexDigitChar (b / 16), hexDigitChar (b % 16)]
  else [b]

/-- Escape every byte of a string body. -/
def escapeBytes : List Nat → List Nat
  | [] => []
  | b :: r => escapeByte b ++ escapeBytes r

mutual

/-- Compact serialization of a Json value, exactly as
serde_json::to_string emits it (no whitespace). -/
def renderJson : Json → List Nat
  | .null => [0x6E, 0x75, 0x6C, 0x6C]
  | .bool true => [0x74, 0x72, 0x75, 0x65]
  | .bool false => [0x66, 0x61, 0x6C, 0x73, 0x65]
  | .num n => renderInt n
  | .str s => 0x22 :: (escapeBytes s ++ [0x22])
  | .arr l => 0x5B :: (renderElems l ++ [0x5D])
  | .obj fs => 0x7B :: (renderFields fs ++ [0x7D])

/-- Comma-separated serialization of array elements. -/
def renderElems : JsonList → List Nat
  | .nil => []
  | .cons v .nil => renderJson v
  | .cons v (.cons w tl) => renderJson v ++ (0x2C :: renderElems (.cons w tl))

/-- Comma-separated serialization of object fields. -/
def renderFields : JsonFields → List Nat
  | .nil => []
  | .cons k v .nil => 0x22 :: (escapeBytes k ++ (0x22 :: (0x3A :: renderJson v)))
  | .cons k v (.cons k2 w tl) =>
      0x22 :: (escapeBytes k ++ (0x22 :: (0x3A :: renderJson v))) ++
        (0x2C :: renderFields (.cons k2 w tl))

end

mutual

/-- Node-count size of a Json value, used as parser fuel bound. -/
def jsize : Json → Nat
  | .null => 1
  | .bool _ => 1
  | .num _ => 1
  | .str _ => 1
  | .arr l => lsize l + 1
  | .obj fs => fsize fs + 1

/-- Size of an array element list. -/
def lsize : JsonList → Nat
  | .nil => 0
  | .cons v tl => jsize v + lsize tl + 1

/-- Size of an object field list. -/
def fsize : JsonFields → Nat
  | .nil => 0
  | .cons _ v tl => jsize v + fsize tl + 1

end

/-- Whitespace skipping of the JSON parser (space, tab, LF, CR). -/
def skipWs : List Nat → List Nat
  | [] => []
  | b :: r => if b = 0x20 ∨ b = 0x09 ∨ b = 0x0A ∨ b = 0x0D then skipWs r else b :: r

/-- Expect the given literal bytes at the head of the input, returning
the remainder (used for the null/true/false keywords). -/
def expectTail (pat : List Nat) (r : List Nat) : Option (List Nat) :=
  if pat.isPrefixOf r then some (r.drop pat.length) else none

/-- Simple JSON string escapes (the non-\u forms accepted by serde_json). -/
def unescapeChar (e : Nat) : Option Nat :=
  if e = 0x22 then some 0x22
  else if e = 0x5C then some 0x5C
  else if e = 0x2F then some 0x2F
  else if e = 0x62 then some 0x08
  else if e = 0x66 then some 0x0C
  else if e = 0x6E then some 0x0A
  else if e = 0x72 then some 0x0D
  else if e = 0x74 then some 0x09
  else none

/-- Parse a JSON string body after the opening quote, returning the
unescaped bytes and the input after the closing quote.  Unpaired
surrogate \u escapes are rejected (serde_json would attempt to combine
surrogate pairs; the serializer never emits them, so the model omits
pair handling). -/
def parseStringBody : List Nat → Option (List Nat × List Nat)
  | [] => none
  | b :: r =>
    if b = 0x22 then some ([], r)
    else if b = 0x5C then
      match r with
      | [] => none
      | e :: r2 =>
        if e = 0x75 then
          match r2 with
          | h1 :: h2 :: h3 :: h4 :: r3 =>
            match hexVal h1, hexVal h2, hexVal h3, hexVal h4 with
            | some a, some a2, some a3, some a4 =>
                let n := ((a * 16 + a2) * 16 + a3) * 16 + a4
                if 0xD800 ≤ n ∧ n ≤ 0xDFFF then none
                else (parseStringBody r3).map (fun p => (utf8Encode n ++ p.1, p.2))
            | _, _, _, _ => none
          | _ => none
        else
          match unescapeChar e with
          | some c => (parseStringBody r2).map (fun p => (c :: p.1, p.2))
          | none => none
    else if b < 0x20 then none
    else (parseStringBody r).map (fun p => (b :: p.1, p.2))

/-- Accumulate decimal digits (maximal munch), JSON number integer part. -/
def parseDigitsAcc : List Nat → Nat → Nat × List Nat
  | [], acc => (acc, [])
  | b :: r, acc =>
      if isDigitByte b then parseDigitsAcc r (acc * 10 + (b - 48)) else (acc, b :: r)

/-- Reject a fraction or exponent continuation after the integer part:
the model covers integer JSON numbers only, and serde would continue
into a float here. -/
def intOnlyGuard (n : Nat) (r : List Nat) : Option (Nat × List Nat) :=
  match r with
  | c :: _ => if c = 0x2E ∨ c = 0x65 ∨ c = 0x45 then none else some (n, r)
  | [] => some (n, r)

/-- Parse the digits of a JSON natural number, enforcing the grammar's
no-leading-zero rule as serde_json does. -/
def parseNatNum : List Nat → Option (Nat × List Nat)
  | [] => none
  | b :: r =>
    if b = 0x30 then
      match r with
      | c :: _ => if isDigitByte c then none else intOnlyGuard 0 r
      | [] => some (0, [])
    else if isDigitByte b then
      let p := parseDigitsAcc r (b - 48)
      intOnlyGuard p.1 p.2
    else none

/-- Parse an integer JSON number with optional leading minus. -/
def parseNumber (l : List Nat) : Option (Int × List Nat) :=
  match l with
  | b :: r =>
      if b = 0x2D then (parseNatNum r).map (fun p => (-(p.1 : Int), p.2))
      else (parseNatNum l).map (fun p => ((p.1 : Int), p.2))
  | [] => none

mutual

/-- Fuel-indexed recursive-descent JSON value parser, the model of
serde_json's deserializer on the value grammar.  Any fuel at least the
node count of the parsed value suffices (decode supplies the input
length, which dominates it). -/
def parseValue : Nat → List Nat → Option (Json × List Nat)
  | 0, _ => none
  | fuel + 1, input =>
    match skipWs input with
    | [] => none
    | b :: r =>
      if b = 0x6E then (expectTail [0x75, 0x6C, 0x6C] r).map (fun r2 => (Json.null, r2))
      else if b = 0x74 then (expectTail [0x72, 0x75, 0x65] r).map (fun r2 => (Json.bool true, r2))
      else if b = 0x66 then
        (expectTail [0x61, 0x6C, 0x73, 0x65] r).map (fun r2 => (Json.bool false, r2))
      else if b = 0x22 then (parseStringBody r).map (fun p => (Json.str p.1, p.2))
      else if b = 0x5B then
        match skipWs r with
        | [] => none
        | c :: r2 =>
            if c = 0x5D then some (Json.arr .nil, r2)
            else (parseElems fuel (c :: r2)).map (fun p => (Json.arr p.1, p.2))
      else if b = 0x7B then
        match skipWs r with
        | [] => none
        | c :: r2 =>
            if c = 0x7D then some (Json.obj .nil, r2)
            else (parseFields fuel (c :: r2)).map (fun p => (Json.obj p.1, p.2))
      else (parseNumber (b :: r)).map (fun p => (Json.num p.1, p.2))

/-- Parse one or more comma-separated array elements up to the closing
bracket. -/
def parseElems : Nat → List Nat → Option (JsonList × List Nat)
  | 0, _ => none
  | fuel + 1, input =>
    match parseValue fuel input with
    | none => none
    | some (v, r1) =>
      match skipWs r1 with
      | [] => none
      | c :: r2 =>
        if c = 0x2C then (parseElems fuel r2).map (fun p => (JsonList.cons v p.1, p.2))
        else if c = 0x5D then some (JsonList.cons v .nil, r2)
        else none

/-- Parse one or more comma-separated object fields up to the closing
brace. -/
def parseFields : Nat → List Nat → Option (JsonFields × List Nat)
  | 0, _ => none
  | fuel + 1, input =>
    match skipWs input with
    | [] => none
    | b :: r =>
      if b = 0x22 then
        match parseStringBody r with
        | none => none
        | some (k, r1) =>
          match skipWs r1 with
          | [] => none
          | c :: r2 =>
            if c = 0x3A then
              match parseValue fuel r2 with
              | none => none
              | some (v, r3) =>
                match skipWs r3 with
                | [] => none
                | c2 :: r4 =>
                  if c2 = 0x2C then
                    (parseFields fuel r4).map (fun p => (JsonFields.cons k v p.1, p.2))
                  else if c2 = 0x7D then some (JsonFields.cons k v .nil, r4)
                  else none
            else none
      else none

end

/-- Parse a complete JSON document: one value with only trailing
whitespace allowed, as serde_json::from_str requires. -/
def parseJsonText (body : List Nat) : Option Json :=
  match parseValue (body.length + 1) body with
  | some (v, rest) => if skipWs rest = [] then some v else none
  | none => none

/-- Value of a digit list continuing an accumulator (folds base 10). -/
def digitsValFrom (a : Nat) : List Nat → Nat
  | [] => a
  | d :: ds => digitsValFrom (a * 10 + (d - 48)) ds

/-- Guard describing the byte that may follow a rendered number so that
the maximal-munch number parser stops exactly at the render boundary. -/
def numGuard : List Nat → Prop
  | [] => True
  | c :: _ => isDigitByte c = false ∧ c ≠ 0x2E ∧ c ≠ 0x65 ∧ c ≠ 0x45

/-- Input does not begin with a decimal digit. -/
def notDigitStart : List Nat → Prop
  | [] => True
  | c :: _ => isDigitByte c = false

/-- Bytes that can begin a rendered JSON value. -/
def headOkB (b : Nat) : Bool :=
  (b = 0x6E) || (b = 0x74) || (b = 0x66) || (b = 0x22) || (b = 0x5B) ||
    (b = 0x7B) || (b = 0x2D) || (48 ≤ b && b ≤ 57)

mutual

/-- Constructibility of a Json value as a Rust serde_json::Value: every
string (and object key) is the byte content of a Rust String, which is
guaranteed valid UTF-8 by the Rust type system. -/
def wfJson : Json → Bool
  | .null => true
  | .bool _ => true
  | .num _ => true
  | .str s => validUtf8 s
  | .arr l => wfJsonList l
  | .obj fs => wfJsonFields fs

/-- Constructibility of an array element list. -/
def wfJsonList : JsonList → Bool
  | .nil => true
  | .cons v tl => wfJson v && wfJsonList tl

/-- Constructibility of an object field list. -/
def wfJsonFields : JsonFields → Bool
  | .nil => true
  | .cons k v tl => validUtf8 k && (wfJson v && wfJsonFields tl)

end

/-- The escape-sequence framing constants of src/protocol.rs: PREFIX is
ESC "P@kitty-cmd" and SUFFIX is ESC backslash. -/
def PREFIXB : List Nat :=
  [0x1B, 0x50, 0x40, 0x6B, 0x69, 0x74, 0x74, 0x79, 0x2D, 0x63, 0x6D, 0x64]

/-- SUFFIX bytes 0x1B 0x5C. -/
def SUFFIXB : List Nat := [0x1B, 0x5C]

/-- Maximum in-band chunk size of the streaming protocol. -/
def MAX_CHUNK_SIZE : Nat := 4096

/-- Serialized field keys of KittyMessage (ASCII bytes). -/
def cmdKey : List Nat := [0x63, 0x6D, 0x64]

/-- Key "version". -/
def versionKey : List Nat := [0x76, 0x65, 0x72, 0x73, 0x69, 0x6F, 0x6E]

/-- Key "no_response". -/
def noResponseKey : List Nat :=
  [0x6E, 0x6F, 0x5F, 0x72, 0x65, 0x73, 0x70, 0x6F, 0x6E, 0x73, 0x65]

/-- Key "kitty_window_id". -/
def kittyWindowIdKey : List Nat :=
  [0x6B, 0x69, 0x74, 0x74, 0x79, 0x5F, 0x77, 0x69, 0x6E, 0x64, 0x6F, 0x77,
   0x5F, 0x69, 0x64]

/-- Key "payload". -/
def payloadKey : List Nat := [0x70, 0x61, 0x79, 0x6C, 0x6F, 0x61, 0x64]

/-- Key "async_id". -/
def asyncIdKey : List Nat := [0x61, 0x73, 0x79, 0x6E, 0x63, 0x5F, 0x69, 0x64]

/-- Key "cancel_async". -/
def cancelAsyncKey : List Nat :=
  [0x63, 0x61, 0x6E, 0x63, 0x65, 0x6C, 0x5F, 0x61, 0x73, 0x79, 0x6E, 0x63]

/-- Key "stream_id". -/
def streamIdKey : List Nat :=
  [0x73, 0x74, 0x72, 0x65, 0x61, 0x6D, 0x5F, 0x69, 0x64]

/-- Key "stream". -/
def streamKey : List Nat := [0x73, 0x74, 0x72, 0x65, 0x61, 0x6D]

/-- Key "data" of a streaming chunk payload. -/
def dataKey : List Nat := [0x64, 0x61, 0x74, 0x61]

/-- Key "chunk_num" of a streaming chunk payload. -/
def chunkNumKey : List Nat :=
  [0x63, 0x68, 0x75, 0x6E, 0x6B, 0x5F, 0x6E, 0x75, 0x6D]

/-- The command envelope of src/protocol.rs (struct KittyMessage).
Strings are byte lists; version entries model the Vec of u32. -/
structure KittyMessage where
  cmd : List Nat
  version : List Nat
  no_response : Option Bool
  kitty_window_id : Option (List Nat)
  payload : Option Json
  async_id : Option (List Nat)
  cancel_async : Option Bool
  stream_id : Option (List Nat)
  stream : Option Bool

/-- KittyMessage::new - all optional fields absent. -/
def KittyMessage.new (cmd : List Nat) (version : List Nat) : KittyMessage :=
  ⟨cmd, version, none, none, none, none, none, none, none⟩

/-- Serde skip_serializing_if=Option::is_none on a string field. -/
def optStrField (key : List Nat) (o : Option (List Nat)) (rest : JsonFields) :
    JsonFields :=
  match o with
  | some s => .cons key (.str s) rest
  | none => rest

/-- Serde skip_serializing_if=Option::is_none on a bool field. -/
def optBoolField (key : List Nat) (o : Option Bool) (rest : JsonFields) :
    JsonFields :=
  match o with
  | some b => .cons key (.bool b) rest
  | none => rest

/-- Serde skip_serializing_if=Option::is_none on the payload field. -/
def optJsonField (key : List Nat) (o : Option Json) (rest : JsonFields) :
    JsonFields :=
  match o with
  | some v => .cons key v rest
  | none => rest

/-- Version vector as a JSON array of numbers. -/
def natsToJsonList : List Nat → JsonList
  | [] => .nil
  | n :: r => .cons (.num (n : Int)) (natsToJsonList r)

/-- Serialized field list of a KittyMessage, in struct declaration order
with absent optional fields omitted (serde derive with
skip_serializing_if). -/
def KittyMessage.toJsonFields (m : KittyMessage) : JsonFields :=
  .cons cmdKey (.str m.cmd)
    (.cons versionKey (.arr (natsToJsonList m.version))
      (optBoolField noResponseKey m.no_response
        (optStrField kittyWindowIdKey m.kitty_window_id
          (optJsonField payloadKey m.payload
            (optStrField asyncIdKey m.async_id
              (optBoolField cancelAsyncKey m.cancel_async
                (optStrField streamIdKey m.stream_id
                  (optBoolField streamKey m.stream .nil))))))))

/-- The JSON object serde_json::to_string(self) serializes. -/
def KittyMessage.toJson (m : KittyMessage) : Json := .obj m.toJsonFields

/-- KittyMessage::encode - the serialized JSON body wrapped in the fixed
prefix and suffix escape sequences.  (In the source this returns a
Result, but serialization of this struct shape cannot fail.) -/
def KittyMessage.encode (m : KittyMessage) : List Nat :=
  PREFIXB ++ renderJson m.toJson ++ SUFFIXB

/-- Reasons of a response-envelope parse failure (the source carries the
corresponding message strings in EnvelopeParseError; the strings are
elided here). -/
inductive EnvelopeReason where
  | invalidUtf8 : EnvelopeReason
  | badPrefix : EnvelopeReason
  | badSuffix : EnvelopeReason
  | notObject : EnvelopeReason
deriving DecidableEq

/-- The protocol error enum of src/error.rs (constructors restricted to
those reachable from the embedded functions; message payloads elided). -/
inductive ProtocolError where
  | InvalidMessageFormat : ProtocolError
  | JsonError : ProtocolError
  | InvalidEscapeSequence : ProtocolError
  | EnvelopeParseError (reason : EnvelopeReason) : ProtocolError
deriving DecidableEq

/-- First-match key lookup in an object field list (the lookup semantics
of serde_json's map). -/
def jLookup : JsonFields → List Nat → Option Json
  | .nil, _ => none
  | .cons k v tl, key => if k = key then some v else jLookup tl key

/-- Deserialize a JSON array as a Vec of u32, as serde does for the
version field: every element must be an integer in u32 range. -/
def asU32List : JsonList → Option (List Nat)
  | .nil => some []
  | .cons (.num n) tl =>
      if 0 ≤ n ∧ n < 4294967296 then (asU32List tl).map (fun r => n.toNat :: r)
      else none
  | .cons _ _ => none

/-- Optional string field extraction: absent or null gives None, a
string gives Some, any other shape is a serde type error. -/
def optGetStr (fs : JsonFields) (key : List Nat) :
    Except ProtocolError (Option (List Nat)) :=
  match jLookup fs key with
  | none => .ok none
  | some .null => .ok none
  | some (.str s) => .ok (some s)
  | some _ => .error .JsonError

/-- Optional bool field extraction (serde Option of bool). -/
def optGetBool (fs : JsonFields) (key : List Nat) :
    Except ProtocolError (Option Bool) :=
  match jLookup fs key with
  | none => .ok none
  | some .null => .ok none
  | some (.bool b) => .ok (some b)
  | some _ => .error .JsonError

/-- Optional Value field extraction (serde Option of serde_json::Value):
an explicit null deserializes to None, like every Option field. -/
def optGetPayload (fs : JsonFields) (key : List Nat) :
    Except ProtocolError (Option Json) :=
  match jLookup fs key with
  | none => .ok none
  | some .null => .ok none
  | some v => .ok (some v)

/-- The derived serde Deserialize of KittyMessage applied to a parsed
JSON value: requires an object with a string cmd and a u32-array
version; optional fields tolerate absence and null; unknown fields are
ignored; type mismatches are serde errors mapped to JsonError. -/
def msgFromJson : Json → Except ProtocolError KittyMessage
  | .obj fs =>
    match jLookup fs cmdKey with
    | some (.str cmd) =>
      match jLookup fs versionKey with
      | some (.arr vl) =>
        match asU32List vl with
        | some version =>
          match optGetBool fs noResponseKey with
          | .error e => .error e
          | .ok no_response =>
            match optGetStr fs kittyWindowIdKey with
            | .error e => .error e
            | .ok kitty_window_id =>
              match optGetPayload fs payloadKey with
              | .error e => .error e
              | .ok payload =>
                match optGetStr fs asyncIdKey with
                | .error e => .error e
                | .ok async_id =>
                  match optGetBool fs cancelAsyncKey with
                  | .error e => .error e
                  | .ok cancel_async =>
                    match optGetStr fs streamIdKey with
                    | .error e => .error e
                    | .ok stream_id =>
                      match optGetBool fs streamKey with
                      | .error e => .error e
                      | .ok stream =>
                        .ok ⟨cmd, version, no_response, kitty_window_id,
                          payload, async_id, cancel_async, stream_id, stream⟩
        | none => .error .JsonError
      | _ => .error .JsonError
    | _ => .error .JsonError
  | _ => .error .JsonError

/-- Rust str::is_char_boundary of a byte index: at the end, or at a byte
that is not a UTF-8 continuation byte. -/
def isCharBoundary (s : List Nat) (i : Nat) : Bool :=
  if i = s.length then true
  else
    match s[i]? with
    | some b => decide (b < 0x80 ∨ 0xC0 ≤ b)
    | none => false

/-- Rust string slicing s[a..b]: panics (modelled as none) unless a ≤ b
and both ends are char boundaries (which also forces b ≤ length). -/
def strSlice (s : List Nat) (a b : Nat) : Option (List Nat) :=
  if a ≤ b ∧ isCharBoundary s a = true ∧ isCharBoundary s b = true then
    some ((s.drop a).take (b - a))
  else none

/-- Parse the JSON interior body as serde_json::from_str does for the
message shape (a parsed value with only trailing whitespace, then the
derived struct deserializer). -/
def msgFromStr (body : List Nat) : Except ProtocolError KittyMessage :=
  match parseJsonText body with
  | some v => msgFromJson v
  | none => .error .JsonError

/-- KittyMessage::decode of src/protocol.rs: UTF-8 validation, exact
prefix and suffix checks, interior slicing (a potential Rust panic,
modelled as the none case), then serde parsing.  The error constructors
match the source call sites. -/
def KittyMessage.decode (data : List Nat) :
    Option (Except ProtocolError KittyMessage) :=
  if validUtf8 data = false then some (.error .InvalidMessageFormat)
  else if PREFIXB.isPrefixOf data = false then some (.error .InvalidEscapeSequence)
  else if SUFFIXB.isSuffixOf data = false then some (.error .InvalidEscapeSequence)
  else
    match strSlice data PREFIXB.length (data.length - SUFFIXB.length) with
    | none => none
    | some body => some (msgFromStr body)

/-- Constructibility of an optional Rust String field. -/
def wfOptStr : Option (List Nat) → Bool
  | none => true
  | some s => validUtf8 s

/-- Constructibility of the optional payload Value. -/
def wfOptJson : Option Json → Bool
  | none => true
  | some p => wfJson p

/-- Constructibility of a KittyMessage as a Rust value: its strings are
valid UTF-8 (the Rust String invariant) and its version entries fit u32
(the Vec of u32 invariant). -/
def wfMsg (m : KittyMessage) : Bool :=
  validUtf8 m.cmd &&
    ((m.version.all fun n => decide (n < 4294967296)) &&
      (wfOptStr m.kitty_window_id &&
        (wfOptStr m.async_id && (wfOptStr m.stream_id && wfOptJson m.payload))))

/-- Key "ok" of the response body. -/
def okKey : List Nat := [0x6F, 0x6B]

/-- Key "error" of the response body. -/
def errorKey : List Nat := [0x65, 0x72, 0x72, 0x6F, 0x72]

/-- The response envelope of src/protocol.rs (struct KittyResponse). -/
structure KittyResponse where
  ok : Bool
  data : Option Json
  error : Option (List Nat)

/-- The derived serde Deserialize of KittyResponse on a parsed value:
ok is a required bool; data and error are optional (absence and null
give None). -/
def responseFromJson : Json → Except ProtocolError KittyResponse
  | .obj fs =>
    match jLookup fs okKey with
    | some (.bool okv) =>
      match optGetPayload fs dataKey with
      | .error e => .error e
      | .ok dat =>
        match optGetStr fs errorKey with
        | .error e => .error e
        | .ok err => .ok ⟨okv, dat, err⟩
    | _ => .error .JsonError
  | _ => .error .JsonError

/-- KittyResponse::decode of src/protocol.rs: UTF-8 validation and the
prefix/suffix checks all map to EnvelopeParseError (with distinct
message strings, elided here as reasons); the interior is parsed as a
JSON value, required to be an object, then deserialized. -/
def KittyResponse.decode (data : List Nat) :
    Option (Except ProtocolError KittyResponse) :=
  if validUtf8 data = false then
    some (.error (.EnvelopeParseError .invalidUtf8))
  else if PREFIXB.isPrefixOf data = false then
    some (.error (.EnvelopeParseError .badPrefix))
  else if SUFFIXB.isSuffixOf data = false then
    some (.error (.EnvelopeParseError .badSuffix))
  else
    match strSlice data PREFIXB.length (data.length - SUFFIXB.length) with
    | none => none
    | some body =>
      match parseJsonText body with
      | none => some (.error .JsonError)
      | some v =>
        match v with
        | .obj fs => some (responseFromJson (.obj fs))
        | _ => some (.error (.EnvelopeParseError .notObject))

/-- KittyMessage::generate_unique_id - the lower-hex rendering of the
value drawn from the process-wide atomic counter (the counter value is
passed explicitly in the embedding). -/
def generate_unique_id (counter : Nat) : List Nat := hexDigits counter

/-- A payload field value that is a string longer than the chunk limit. -/
def strFieldOversized : Json → Bool
  | .str s => decide (MAX_CHUNK_SIZE < s.length)
  | _ => false

/-- Scan of the payload object for any oversized string field. -/
def fieldsHasOversized : JsonFields → Bool
  | .nil => false
  | .cons _ v tl => strFieldOversized v || fieldsHasOversized tl

/-- KittyMessage::needs_streaming - true when the payload is an object
with a string field whose byte length exceeds MAX_CHUNK_SIZE. -/
def KittyMessage.needs_streaming (m : KittyMessage) : Bool :=
  match m.payload with
  | some (.obj fs) => fieldsHasOversized fs
  | _ => false

/-- One-pass take and drop (Rust slice::chunks building block). -/
def takeChunk : Nat → List Nat → List Nat × List Nat
  | _, [] => ([], [])
  | 0, x :: xs => ([], x :: xs)
  | n + 1, x :: xs =>
    let p := takeChunk n xs
    (x :: p.1, p.2)

/-- Rust slice::chunks(MAX_CHUNK_SIZE): groups of at most 4096 bytes,
none empty; fuel is the input length so the definition evaluates in the
kernel. -/
def chunksOfAux : Nat → List Nat → List (List Nat)
  | _, [] => []
  | 0, _ :: _ => []
  | fuel + 1, x :: xs =>
    (takeChunk MAX_CHUNK_SIZE (x :: xs)).1 ::
      chunksOfAux fuel (takeChunk MAX_CHUNK_SIZE (x :: xs)).2

/-- The chunk sequence of a byte string. -/
def chunksOf4096 (s : List Nat) : List (List Nat) := chunksOfAux s.length s

/-- One content chunk message: base message (payload removed) with the
shared stream id, the stream flag, and a fresh payload map holding the
lossily re-decoded slice and its chunk number.  The field order is the
BTreeMap iteration order of serde_json's map (chunk_num before data). -/
def mkChunk (base : KittyMessage) (sid : List Nat) (i : Nat) (d : List Nat) :
    KittyMessage :=
  { base with
    stream_id := some sid
    stream := some true
    payload := some (.obj (.cons chunkNumKey (.num (i : Int))
      (.cons dataKey (.str (utf8Lossy d)) .nil))) }

/-- Content chunk messages with chunk numbers from the given index. -/
def chunkMsgs (base : KittyMessage) (sid : List Nat) :
    Nat → List (List Nat) → List KittyMessage
  | _, [] => []
  | i, d :: ds => mkChunk base sid i d :: chunkMsgs base sid (i + 1) ds

/-- The terminating chunk: same stream id and flag, empty data field. -/
def endChunk (base : KittyMessage) (sid : List Nat) : KittyMessage :=
  { base with
    stream_id := some sid
    stream := some true
    payload := some (.obj (.cons dataKey (.str []) .nil)) }

/-- The field loop of into_chunks: find the first string field over the
limit and emit its chunk sequence; none when no field qualifies. -/
def splitFirstOversized (base : KittyMessage) (sid : List Nat) :
    JsonFields → Option (List KittyMessage)
  | .nil => none
  | .cons _ v tl =>
    match v with
    | .str s =>
      if MAX_CHUNK_SIZE < s.length then
        some (chunkMsgs base sid 0 (chunksOf4096 s) ++ [endChunk base sid])
      else splitFirstOversized base sid tl
    | _ => splitFirstOversized base sid tl

/-- KittyMessage::into_chunks of src/protocol.rs.  The counter argument
stands for the value read from the process-wide STREAM_ID_COUNTER by
the single generate_unique_id call. -/
def KittyMessage.into_chunks (m : KittyMessage) (counter : Nat) :
    List KittyMessage :=
  if m.needs_streaming = false then [m]
  else
    match m.payload with
    | none => [{ m with payload := none }]
    | some p =>
      let base := { m with payload := none }
      match p with
      | .obj fs =>
        match splitFirstOversized base (generate_unique_id counter) fs with
        | some cs => cs
        | none => [base]
      | _ => [base]

/-- Errors of src/error.rs reachable from the embedded functions
(payload details elided). -/
inductive EncryptionError where
  | MissingPublicKey : EncryptionError
  | InvalidPublicKey : EncryptionError
  | PublicKeyTooShort (expected actual : Nat) : EncryptionError
deriving DecidableEq

/-- Connection errors reachable from the embedded receive loop. -/
inductive ConnectionError where
  | TimeoutError : ConnectionError
  | ConnectionClosed : ConnectionError
  | ConnectionFailed : ConnectionError
deriving DecidableEq

/-- The top-level error enum of src/error.rs (restricted). -/
inductive KittyError where
  | Protocol (e : ProtocolError) : KittyError
  | Connection (e : ConnectionError) : KittyError
  | Encryption (e : EncryptionError) : KittyError
deriving DecidableEq

/-- The Encryptor of src/encryption.rs, holding the 32-byte peer public
key (the x25519 key bytes). -/
structure Encryptor where
  kitty_public_key : List Nat

/-- RFC 1924 base85 digit value of an ASCII byte (the alphabet of the
base85 crate used for key decoding). -/
def b85CharVal (c : Nat) : Option Nat :=
  if 48 ≤ c ∧ c ≤ 57 then some (c - 48)
  else if 65 ≤ c ∧ c ≤ 90 then some (c - 55)
  else if 97 ≤ c ∧ c ≤ 122 then some (c - 61)
  else if c = 0x21 then some 62
  else if c = 0x23 then some 63
  else if c = 0x24 then some 64
  else if c = 0x25 then some 65
  else if c = 0x26 then some 66
  else if c = 0x28 then some 67
  else if c = 0x29 then some 68
  else if c = 0x2A then some 69
  else if c = 0x2B then some 70
  else if c = 0x2D then some 71
  else if c = 0x3B then some 72
  else if c = 0x3C then some 73
  else if c = 0x3D then some 74
  else if c = 0x3E then some 75
  else if c = 0x3F then some 76
  else if c = 0x40 then some 77
  else if c = 0x5E then some 78
  else if c = 0x5F then some 79
  else if c = 0x60 then some 80
  else if c = 0x7B then some 81
  else if c = 0x7C then some 82
  else if c = 0x7D then some 83
  else if c = 0x7E then some 84
  else none

/-- The 4 big-endian bytes of a 32-bit group value. -/
def b85GroupBytes (n : Nat) : List Nat :=
  [n / 16777216 % 256, n / 65536 % 256, n / 256 % 256, n % 256]

/-- Modelled base85 decoding (RFC 1924): full groups of five digits give
four bytes; a trailing partial group of k digits (2 ≤ k ≤ 4) is padded
with the maximal digit and gives k-1 bytes; an invalid digit or a
single トrailing digit is a decode error. -/
def base85Decode : List Nat → Option (List Nat)
  | [] => some []
  | [_] => none
  | [c1, c2] =>
    match b85CharVal c1, b85CharVal c2 with
    | some v1, some v2 =>
        some ((b85GroupBytes ((((v1 * 85 + v2) * 85 + 84) * 85 + 84) * 85 + 84)).take 1)
    | _, _ => none
  | [c1, c2, c3] =>
    match b85CharVal c1, b85CharVal c2, b85CharVal c3 with
    | some v1, some v2, some v3 =>
        some ((b85GroupBytes (((((v1 * 85 + v2) * 85 + v3) * 85 + 84) * 85 + 84))).take 2)
    | _, _, _ => none
  | [c1, c2, c3, c4] =>
    match b85CharVal c1, b85CharVal c2, b85CharVal c3, b85CharVal c4 with
    | some v1, some v2, some v3, some v4 =>
        some ((b85GroupBytes ((((v1 * 85 + v2) * 85 + v3) * 85 + v4) * 85 + 84)).take 3)
    | _, _, _, _ => none
  | c1 :: c2 :: c3 :: c4 :: c5 :: rest =>
    match b85CharVal c1, b85CharVal c2, b85CharVal c3, b85CharVal c4, b85CharVal c5 with
    | some v1, some v2, some v3, some v4, some v5 =>
        (base85Decode rest).map
          (fun bs => b85GroupBytes ((((v1 * 85 + v2) * 85 + v3) * 85 + v4) * 85 + v5) ++ bs)
    | _, _, _, _, _ => none

/-- The required "1:" version tag on key strings. -/
def b85VersionTag : List Nat := [0x31, 0x3A]

/-- Rust str::strip_prefix with the "1:" version tag. -/
def stripVersionTag (s : List Nat) : Option (List Nat) :=
  if b85VersionTag.isPrefixOf s then some (s.drop 2) else none

/-- Encryptor::bytes_to_public_key - reject keys below 32 bytes, take
exactly the first 32 bytes otherwise. -/
def Encryptor.bytes_to_public_key (key_bytes : List Nat) :
    Except EncryptionError (List Nat) :=
  if key_bytes.length < 32 then
    .error (.PublicKeyTooShort 32 key_bytes.length)
  else .ok (key_bytes.take 32)

/-- Encryptor::parse_public_key - strip the version tag, decode the
base85 body, and validate the length. -/
def Encryptor.parse_public_key (key_str : List Nat) :
    Except EncryptionError (List Nat) :=
  match stripVersionTag key_str with
  | none => .error .InvalidPublicKey
  | some key_data =>
    match base85Decode key_data with
    | none => .error .InvalidPublicKey
    | some key_bytes => Encryptor.bytes_to_public_key key_bytes

/-- The ambient key sources of Encryptor::read_kitty_public_key: the
KITTY_PUBLIC_KEY environment value and the fallback key file contents
(none when the file does not exist). -/
structure KeyEnv where
  envKey : Option (List Nat)
  fileKey : Option (List Nat)

/-- Encryptor::read_kitty_public_key - the environment value (decoded
from its version-tagged base85 form) wins; otherwise the raw bytes of
the fallback file; otherwise the missing-key error. -/
def Encryptor.read_kitty_public_key (env : KeyEnv) :
    Except EncryptionError (List Nat) :=
  match env.envKey with
  | some key_str =>
    match stripVersionTag key_str with
    | none => .error .InvalidPublicKey
    | some key_data =>
      match base85Decode key_data with
      | none => .error .InvalidPublicKey
      | some key_bytes => .ok key_bytes
  | none =>
    match env.fileKey with
    | some bytes => .ok bytes
    | none => .error .MissingPublicKey

/-- Encryptor::new_with_public_key - parse the explicitly supplied key
string when present, otherwise read and validate the ambient key. -/
def Encryptor.new_with_public_key (env : KeyEnv) (public_key : Option (List Nat)) :
    Except EncryptionError Encryptor :=
  match public_key with
  | some pk => (Encryptor.parse_public_key pk).map Encryptor.mk
  | none =>
    match Encryptor.read_kitty_public_key env with
    | .error e => .error e
    | .ok key_bytes => (Encryptor.bytes_to_public_key key_bytes).map Encryptor.mk

/-- The encryptor setup of KittyBuilder::connect (src/client.rs lines
133-145): with a password, the explicit key wins, otherwise the
pid-store lookup (when a pid can be extracted from the socket path),
otherwise the ambient sources inside new_with_public_key; without a
password no encryptor is constructed. -/
def resolveEncryptor (password : Option (List Nat)) (explicitKey : Option (List Nat))
    (socketPid : Option Nat) (db : Nat → Option (List Nat)) (env : KeyEnv) :
    Except EncryptionError (Option Encryptor) :=
  match password with
  | none => .ok none
  | some _ =>
    let public_key :=
      match explicitKey with
      | some pk => some pk
      | none =>
        match socketPid with
        | some pid => db pid
        | none => none
    (Encryptor.new_with_public_key env public_key).map some

/-- Key "password". -/
def passwordKey : List Nat := [0x70, 0x61, 0x73, 0x73, 0x77, 0x6F, 0x72, 0x64]

/-- Key "timestamp". -/
def timestampKey : List Nat :=
  [0x74, 0x69, 0x6D, 0x65, 0x73, 0x74, 0x61, 0x6D, 0x70]

/-- Map insert with BTreeMap semantics on the lookup level: replace the
value of an existing key, otherwise add the binding. -/
def jsonInsert : JsonFields → List Nat → Json → JsonFields
  | .nil, k, v => .cons k v .nil
  | .cons k0 v0 tl, k, v =>
      if k0 = k then .cons k0 v tl else .cons k0 v0 (jsonInsert tl k v)

/-- The cleartext payload that Kitty::encrypt_command hands to
Encryptor::encrypt_command (src/client.rs lines 180-192): with no
payload a fresh map with password and timestamp; with an object payload
the two fields inserted; any other payload value is passed through
unchanged (as_object_mut yields nothing). -/
def encrypt_command_cleartext (password : List Nat) (timestamp : Nat)
    (payload : Option Json) : Json :=
  match payload with
  | some (.obj fs) =>
      .obj (jsonInsert (jsonInsert fs passwordKey (.str password))
        timestampKey (.num (timestamp : Int)))
  | some p => p
  | none =>
      .obj (.cons passwordKey (.str password)
        (.cons timestampKey (.num (timestamp : Int)) .nil))

/-- The read loop of Kitty::receive (src/client.rs lines 212-229),
driven by the successful reads the socket yields in order; an empty
read models the peer closing.  Returns the accumulated buffer at loop
exit; none when the read sequence is exhausted without an exit (the
real loop would keep blocking on the socket). -/
def receiveBuffer : List (List Nat) → List Nat → Option (List Nat)
  | [], _ => none
  | r :: rs, acc =>
    if r.length = 0 then some acc
    else
      if SUFFIXB.isSuffixOf (acc ++ r) then some (acc ++ r)
      else receiveBuffer rs (acc ++ r)

/-- Kitty::receive - the loop, the empty-buffer connection-closed check,
then response decoding (decode panics propagate as none). -/
def Kitty.receive (reads : List (List Nat)) :
    Option (Except KittyError KittyResponse) :=
  match receiveBuffer reads [] with
  | none => none
  | some buffer =>
    if buffer.length = 0 then some (.error (.Connection .ConnectionClosed))
    else
      match KittyResponse.decode buffer with
      | none => none
      | some (.ok resp) => some (.ok resp)
      | some (.error e) => some (.error (.Protocol e))

/-- The ls envelope of the spec's encoding scenario. -/
def lsMsg : KittyMessage := KittyMessage.new [0x6C, 0x73] [0, 43, 1]

/-- The expected 45 wire bytes of the encoded ls envelope. -/
def lsWire : List Nat :=
  [0x1B, 0x50, 0x40, 0x6B, 0x69, 0x74, 0x74, 0x79, 0x2D, 0x63, 0x6D, 0x64,
   0x7B, 0x22, 0x63, 0x6D, 0x64, 0x22, 0x3A, 0x22, 0x6C, 0x73, 0x22, 0x2C,
   0x22, 0x76, 0x65, 0x72, 0x73, 0x69, 0x6F, 0x6E, 0x22, 0x3A, 0x5B, 0x30,
   0x2C, 0x34, 0x33, 0x2C, 0x31, 0x5D, 0x7D, 0x1B, 0x5C]

/-- The ls envelope with payload Some(Value::Null). -/
def nullPayloadMsg : KittyMessage := { lsMsg with payload := some Json.null }

/-- An envelope whose payload holds one 4097-byte string field. -/
def bigStrMsg : KittyMessage :=
  { lsMsg with payload := some (.obj (.cons dataKey
      (.str (List.replicate 4097 0x61)) .nil)) }

/-- 4097 bytes of ascii a. -/
def sA4097 : List Nat := List.replicate 4097 0x61

/-- 4097 bytes of ascii b. -/
def sB4097 : List Nat := List.replicate 4097 0x62

/-- An envelope with two independently oversized string fields "a", "b". -/
def twoFieldMsg : KittyMessage :=
  { lsMsg with payload := some (.obj (.cons [0x61] (.str sA4097)
      (.cons [0x62] (.str sB4097) .nil))) }

/-- 4098 bytes whose three-byte character straddles the 4096 boundary. -/
def straddleStr : List Nat :=
  (List.replicate 4095 0x61 ++ [0xE2]) ++ [0x82, 0xAC]

/-- The envelope streaming straddleStr. -/
def straddleMsg : KittyMessage :=
  { lsMsg with payload := some (.obj (.cons dataKey (.str straddleStr) .nil)) }

/-- A well-formed key string: the 1: version tag and forty base85 zeros,
decoding to 32 zero bytes. -/
def demoKeyStr : List Nat := [0x31, 0x3A] ++ List.replicate 40 0x30

/-- A pid store holding demoKeyStr under pid 5. -/
def demoDb : Nat → Option (List Nat) :=
  fun pid => if pid = 5 then some demoKeyStr else none

theorem natDigitsAux_ne_nil : ∀ fuel n, n < fuel → natDigitsAux fuel n ≠ [] := by
  intro fuel
  induction fuel with
  | zero => intro n h; omega
  | succ f ih =>
    intro n _
    by_cases h10 : n < 10
    · simp [natDigitsAux, h10]
    · simp [natDigitsAux, h10]

theorem natDigitsAux_mem : ∀ fuel n, n < fuel →
    ∀ b ∈ natDigitsAux fuel n, 48 ≤ b ∧ b ≤ 57 := by
  intro fuel
  induction fuel with
  | zero => intro n h; omega
  | succ f ih =>
    intro n hn b hb
    by_cases h10 : n < 10
    · simp [natDigitsAux, h10] at hb
      omega
    · simp [natDigitsAux, h10] at hb
      rcases hb with hb | hb
      · exact ih (n / 10) (by omega) b hb
      · omega

theorem natDigitsAux_head : ∀ fuel n, n < fuel → 1 ≤ n →
    ∀ d t, natDigitsAux fuel n = d :: t → 49 ≤ d ∧ d ≤ 57 := by
  intro fuel
  induction fuel with
  | zero => intro n h; omega
  | succ f ih =>
    intro n hn h1 d t heq
    by_cases h10 : n < 10
    · simp [natDigitsAux, h10] at heq
      omega
    · simp [natDigitsAux, h10] at heq
      cases hpre : natDigitsAux f (n / 10) with
      | nil => exact absurd hpre (natDigitsAux_ne_nil f (n / 10) (by omega))
      | cons d0 t0 =>
        rw [hpre] at heq
        simp at heq
        obtain ⟨hd, -⟩ := heq
        exact hd ▸ ih (n / 10) (by omega) (by omega) d0 t0 hpre

theorem digitsValFrom_append : ∀ xs ys a,
    digitsValFrom a (xs ++ ys) = digitsValFrom (digitsValFrom a xs) ys := by
  intro xs
  induction xs with
  | nil => intro ys a; rfl
  | cons d ds ih =>
    intro ys a
    exact ih ys (a * 10 + (d - 48))

theorem digitsValFrom_nil (a : Nat) : digitsValFrom a [] = a := rfl

theorem digitsValFrom_cons (a d : Nat) (ds : List Nat) :
    digitsValFrom a (d :: ds) = digitsValFrom (a * 10 + (d - 48)) ds := rfl

theorem digitsValFrom_natDigitsAux : ∀ fuel n, n < fuel → ∀ a,
    digitsValFrom a (natDigitsAux fuel n) =
      a * 10 ^ (natDigitsAux fuel n).length + n := by
  intro fuel
  induction fuel with
  | zero => intro n h; omega
  | succ f ih =>
    intro n hn a
    by_cases h10 : n < 10
    · simp [natDigitsAux, h10, digitsValFrom_cons, digitsValFrom_nil]
    · simp only [natDigitsAux, h10, if_false, ite_false]
      rw [digitsValFrom_append, ih (n / 10) (by omega)]
      simp only [digitsValFrom_cons, digitsValFrom_nil, List.length_append,
        List.length_cons, List.length_nil]
      have hmod : n % 10 < 10 := Nat.mod_lt n (by omega)
      have hpow : (10 : Nat) ^ ((natDigitsAux f (n / 10)).length + (0 + 1)) =
          10 ^ (natDigitsAux f (n / 10)).length * 10 := by
        rw [Nat.pow_succ]
      rw [hpow]
      ring_nf
      omega

theorem natDigits_ne_nil (n : Nat) : natDigits n ≠ [] :=
  natDigitsAux_ne_nil (n + 1) n (by omega)

theorem natDigits_mem (n : Nat) : ∀ b ∈ natDigits n, 48 ≤ b ∧ b ≤ 57 :=
  natDigitsAux_mem (n + 1) n (by omega)

theorem natDigits_head (n : Nat) (h1 : 1 ≤ n) :
    ∀ d t, natDigits n = d :: t → 49 ≤ d ∧ d ≤ 57 :=
  natDigitsAux_head (n + 1) n (by omega) h1

theorem digitsValFrom_natDigits (n : Nat) :
    digitsValFrom 0 (natDigits n) = n := by
  have := digitsValFrom_natDigitsAux (n + 1) n (by omega) 0
  simpa [natDigits] using this

theorem parseDigitsAcc_nil (acc : Nat) : parseDigitsAcc [] acc = (acc, []) := rfl

theorem parseDigitsAcc_cons (b : Nat) (r : List Nat) (acc : Nat) :
    parseDigitsAcc (b :: r) acc =
      if isDigitByte b then parseDigitsAcc r (acc * 10 + (b - 48))
      else (acc, b :: r) := rfl

theorem parseDigitsAcc_spec : ∀ dl rest acc,
    (∀ b ∈ dl, 48 ≤ b ∧ b ≤ 57) → notDigitStart rest →
    parseDigitsAcc (dl ++ rest) acc = (digitsValFrom acc dl, rest) := by
  intro dl
  induction dl with
  | nil =>
    intro rest acc _ hrest
    match rest with
    | [] => rfl
    | c :: r =>
      have hc : isDigitByte c = false := hrest
      simp [parseDigitsAcc_cons, hc, digitsValFrom_nil]
  | cons d ds ih =>
    intro rest acc hmem hrest
    have hd : 48 ≤ d ∧ d ≤ 57 := hmem d (by simp)
    have hdig : isDigitByte d = true := by simp [isDigitByte]; omega
    rw [List.cons_append, parseDigitsAcc_cons, if_pos hdig, digitsValFrom_cons]
    exact ih rest (acc * 10 + (d - 48)) (fun b hb => hmem b (by simp [hb])) hrest

theorem intOnlyGuard_spec (n : Nat) (rest : List Nat) (h : numGuard rest) :
    intOnlyGuard n rest = some (n, rest) := by
  match rest with
  | [] => rfl
  | c :: r =>
    obtain ⟨-, h1, h2, h3⟩ := h
    simp [intOnlyGuard, h1, h2, h3]

theorem parseNatNum_natDigits (n : Nat) (rest : List Nat) (h : numGuard rest) :
    parseNatNum (natDigits n ++ rest) = some (n, rest) := by
  rcases Nat.eq_zero_or_pos n with hn | hn
  · subst hn
    have h0 : natDigits 0 = [48] := rfl
    rw [h0]
    match rest with
    | [] => rfl
    | c :: r =>
      obtain ⟨hc, h1, h2, h3⟩ := h
      simp only [List.cons_append, List.nil_append, parseNatNum, if_pos rfl]
      simp [hc, intOnlyGuard, h1, h2, h3]
  · cases heq : natDigits n with
    | nil => exact absurd heq (natDigits_ne_nil n)
    | cons d t =>
      have hd : 49 ≤ d ∧ d ≤ 57 := natDigits_head n hn d t heq
      have hmem : ∀ b ∈ t, 48 ≤ b ∧ b ≤ 57 := by
        intro b hb
        exact natDigits_mem n b (by rw [heq]; simp [hb])
      have hnds : notDigitStart rest := by
        match rest with
        | [] => trivial
        | c :: r => exact h.1
      have hval : digitsValFrom (d - 48) t = n := by
        have := digitsValFrom_natDigits n
        rw [heq, digitsValFrom_cons] at this
        simpa using this
      rw [List.cons_append]
      show parseNatNum (d :: (t ++ rest)) = some (n, rest)
      have hd48 : ¬(d = 0x30) := by omega
      have hdig : isDigitByte d = true := by simp [isDigitByte]; omega
      simp only [parseNatNum, hd48, if_false, ite_false, hdig, if_true, ite_true]
      rw [parseDigitsAcc_spec t rest (d - 48) hmem hnds]
      exact hval ▸ intOnlyGuard_spec _ rest h

theorem parseNumber_cons (b : Nat) (r : List Nat) :
    parseNumber (b :: r) =
      if b = 0x2D then (parseNatNum r).map (fun p => (-(p.1 : Int), p.2))
      else (parseNatNum (b :: r)).map (fun p => ((p.1 : Int), p.2)) := rfl

theorem parseNumber_renderInt (z : Int) (rest : List Nat) (h : numGuard rest) :
    parseNumber (renderInt z ++ rest) = some (z, rest) := by
  cases z with
  | ofNat n =>
    show parseNumber (natDigits n ++ rest) = some ((n : Int), rest)
    cases heq : natDigits n with
    | nil => exact absurd heq (natDigits_ne_nil n)
    | cons d t =>
      have hd : 48 ≤ d ∧ d ≤ 57 := natDigits_mem n d (by rw [heq]; simp)
      have hd45 : ¬(d = 0x2D) := by omega
      have hpn : parseNatNum (d :: (t ++ rest)) = some (n, rest) := by
        have hh := parseNatNum_natDigits n rest h
        rwa [heq, List.cons_append] at hh
      show parseNumber (d :: (t ++ rest)) = some ((n : Int), rest)
      rw [parseNumber_cons, if_neg hd45, hpn]
      rfl
  | negSucc m =>
    show parseNumber ((0x2D :: natDigits (m + 1)) ++ rest) = some (Int.negSucc m, rest)
    rw [List.cons_append, parseNumber_cons, if_pos rfl,
      parseNatNum_natDigits (m + 1) rest h]
    show some (-(((m + 1 : Nat) : Int)), rest) = some (Int.negSucc m, rest)
    have hneg : (-((m + 1 : Nat) : Int)) = Int.negSucc m := by
      rw [Int.negSucc_eq]
      push_cast
      ring
    rw [hneg]

theorem hexVal_hexDigitChar (m : Nat) (h : m < 16) : hexVal (hexDigitChar m) = some m := by
  by_cases h10 : m < 10
  · simp only [hexVal, hexDigitChar, if_pos h10]
    rw [if_pos (by omega : 48 ≤ 48 + m ∧ 48 + m ≤ 57)]
    congr 1
    omega
  · simp only [hexVal, hexDigitChar, if_neg h10]
    rw [if_neg (by omega : ¬(48 ≤ 87 + m ∧ 87 + m ≤ 57)),
      if_pos (by omega : 97 ≤ 87 + m ∧ 87 + m ≤ 102)]
    congr 1
    omega

theorem parseStringBody_raw (b : Nat) (L : List Nat) (h1 : ¬(b = 0x22))
    (h2 : ¬(b = 0x5C)) (h3 : ¬(b < 0x20)) :
    parseStringBody (b :: L) = (parseStringBody L).map (fun p => (b :: p.1, p.2)) := by
  rw [parseStringBody.eq_def]
  simp [h1, h2, h3]

theorem parseStringBody_escSimple (e c : Nat) (L : List Nat)
    (he : ¬(e = 0x75)) (hc : unescapeChar e = some c) :
    parseStringBody (0x5C :: e :: L) =
      (parseStringBody L).map (fun p => (c :: p.1, p.2)) := by
  rw [parseStringBody.eq_def]
  simp [he, hc]

theorem parseStringBody_escape : ∀ s rest,
    parseStringBody (escapeBytes s ++ (0x22 :: rest)) = some (s, rest) := by
  intro s
  induction s with
  | nil =>
    intro rest
    show parseStringBody (0x22 :: rest) = some ([], rest)
    rw [parseStringBody.eq_def]
    rfl
  | cons b s ih =>
    intro rest
    show parseStringBody ((escapeByte b ++ escapeBytes s) ++ (0x22 :: rest)) =
      some (b :: s, rest)
    rw [List.append_assoc]
    by_cases h22 : b = 0x22
    · subst h22
      rw [show escapeByte 0x22 = [0x5C, 0x22] from rfl, List.cons_append,
        List.cons_append, List.nil_append,
        parseStringBody_escSimple 0x22 0x22 _ (by decide) rfl, ih]
      rfl
    by_cases h5C : b = 0x5C
    · subst h5C
      rw [show escapeByte 0x5C = [0x5C, 0x5C] from rfl, List.cons_append,
        List.cons_append, List.nil_append,
        parseStringBody_escSimple 0x5C 0x5C _ (by decide) rfl, ih]
      rfl
    by_cases h08 : b = 0x08
    · subst h08
      rw [show escapeByte 0x08 = [0x5C, 0x62] from rfl, List.cons_append,
        List.cons_append, List.nil_append,
        parseStringBody_escSimple 0x62 0x08 _ (by decide) rfl, ih]
      rfl
    by_cases h09 : b = 0x09
    · subst h09
      rw [show escapeByte 0x09 = [0x5C, 0x74] from rfl, List.cons_append,
        List.cons_append, List.nil_append,
        parseStringBody_escSimple 0x74 0x09 _ (by decide) rfl, ih]
      rfl
    by_cases h0A : b = 0x0A
    · subst h0A
      rw [show escapeByte 0x0A = [0x5C, 0x6E] from rfl, List.cons_append,
        List.cons_append, List.nil_append,
        parseStringBody_escSimple 0x6E 0x0A _ (by decide) rfl, ih]
      rfl
    by_cases h0C : b = 0x0C
    · subst h0C
      rw [show escapeByte 0x0C = [0x5C, 0x66] from rfl, List.cons_append,
        List.cons_append, List.nil_append,
        parseStringBody_escSimple 0x66 0x0C _ (by decide) rfl, ih]
      rfl
    by_cases h0D : b = 0x0D
    · subst h0D
      rw [show escapeByte 0x0D = [0x5C, 0x72] from rfl, List.cons_append,
        List.cons_append, List.nil_append,
        parseStringBody_escSimple 0x72 0x0D _ (by decide) rfl, ih]
      rfl
    by_cases hctl : b < 0x20
    · have hesc : escapeByte b =
          [0x5C, 0x75, 0x30, 0x30, hexDigitChar (b / 16), hexDigitChar (b % 16)] := by
        simp [escapeByte, h22, h5C, h08, h09, h0A, h0C, h0D, hctl]
      rw [hesc]
      have hv3 : hexVal (hexDigitChar (b / 16)) = some (b / 16) :=
        hexVal_hexDigitChar _ (by omega)
      have hv4 : hexVal (hexDigitChar (b % 16)) = some (b % 16) :=
        hexVal_hexDigitChar _ (by omega)
      show parseStringBody (0x5C :: 0x75 :: 0x30 :: 0x30 :: hexDigitChar (b / 16) ::
          hexDigitChar (b % 16) :: (escapeBytes s ++ (0x22 :: rest))) = some (b :: s, rest)
      rw [parseStringBody.eq_def]
      simp only [show ((0x5C : Nat) = 0x22) = False from by simp,
        show ((0x5C : Nat) = 0x5C) = True from by simp,
        show ((0x75 : Nat) = 0x75) = True from by simp,
        if_true, if_false, ite_true, ite_false, iff_true]
      rw [show hexVal 0x30 = some 0 from rfl, hv3, hv4]
      have hn : ((0 * 16 + 0) * 16 + b / 16) * 16 + b % 16 = b := by omega
      simp only [hn]
      have hsur : ¬(0xD800 ≤ b ∧ b ≤ 0xDFFF) := by omega
      rw [if_neg hsur, ih]
      have henc : utf8Encode b = [b] := by
        simp [utf8Encode]
        omega
      rw [henc]
      rfl
    · have hesc : escapeByte b = [b] := by
        simp [escapeByte, h22, h5C, h08, h09, h0A, h0C, h0D, hctl]
      rw [hesc, List.singleton_append,
        parseStringBody_raw b _ h22 h5C hctl, ih]
      rfl

theorem headOkB_props (b : Nat) (h : headOkB b = true) :
    ¬(b = 0x20 ∨ b = 0x09 ∨ b = 0x0A ∨ b = 0x0D) ∧ ¬(b = 0x5D) ∧ ¬(b = 0x7D) ∧
      ¬(b = 0x2C) ∧ ¬(b = 0x3A) := by
  have h2 : ((((((b = 110 ∨ b = 116) ∨ b = 102) ∨ b = 34) ∨ b = 91) ∨ b = 123) ∨
      b = 45) ∨ (48 ≤ b ∧ b ≤ 57) := by
    simpa [headOkB] using h
  omega

theorem jsize_pos : ∀ v : Json, 1 ≤ jsize v := by
  intro v
  cases v <;> simp [jsize]

theorem skipWs_cons (b : Nat) (l : List Nat)
    (h : ¬(b = 0x20 ∨ b = 0x09 ∨ b = 0x0A ∨ b = 0x0D)) :
    skipWs (b :: l) = b :: l := by
  rw [skipWs.eq_def]
  simp [h]

theorem expectTail_self (pat rest : List Nat) :
    expectTail pat (pat ++ rest) = some rest := by
  have hp : pat.isPrefixOf (pat ++ rest) = true := by
    rw [List.isPrefixOf_iff_prefix]
    exact List.prefix_append pat rest
  rw [expectTail, if_pos hp, List.drop_left]

theorem renderJson_head : ∀ v : Json, ∃ b t, renderJson v = b :: t ∧ headOkB b = true := by
  intro v
  cases v with
  | null => exact ⟨0x6E, _, rfl, by decide⟩
  | bool bv =>
    cases bv with
    | false => exact ⟨0x66, _, rfl, by decide⟩
    | true => exact ⟨0x74, _, rfl, by decide⟩
  | num z =>
    cases z with
    | ofNat n =>
      cases heq : natDigits n with
      | nil => exact absurd heq (natDigits_ne_nil n)
      | cons d t =>
        refine ⟨d, t, ?_, ?_⟩
        · show renderInt (Int.ofNat n) = d :: t
          rw [show renderInt (Int.ofNat n) = natDigits n from rfl, heq]
        · have hd := natDigits_mem n d (by rw [heq]; simp)
          simp [headOkB]
          omega
    | negSucc m => exact ⟨0x2D, _, rfl, by decide⟩
  | str s => exact ⟨0x22, _, rfl, by decide⟩
  | arr l => exact ⟨0x5B, _, rfl, by decide⟩
  | obj fs => exact ⟨0x7B, _, rfl, by decide⟩

theorem numGuard_cons (c : Nat) (r : List Nat) (h1 : isDigitByte c = false)
    (h2 : ¬(c = 0x2E)) (h3 : ¬(c = 0x65)) (h4 : ¬(c = 0x45)) :
    numGuard (c :: r) := ⟨h1, h2, h3, h4⟩

theorem parseValue_step_null (f : Nat) (r : List Nat) :
    parseValue (f + 1) (0x6E :: r) =
      (expectTail [0x75, 0x6C, 0x6C] r).map (fun r2 => (Json.null, r2)) := by
  rw [parseValue.eq_def]
  rfl

theorem parseValue_step_true (f : Nat) (r : List Nat) :
    parseValue (f + 1) (0x74 :: r) =
      (expectTail [0x72, 0x75, 0x65] r).map (fun r2 => (Json.bool true, r2)) := by
  rw [parseValue.eq_def]
  rfl

theorem parseValue_step_false (f : Nat) (r : List Nat) :
    parseValue (f + 1) (0x66 :: r) =
      (expectTail [0x61, 0x6C, 0x73, 0x65] r).map (fun r2 => (Json.bool false, r2)) := by
  rw [parseValue.eq_def]
  rfl

theorem parseValue_step_quote (f : Nat) (r : List Nat) :
    parseValue (f + 1) (0x22 :: r) =
      (parseStringBody r).map (fun p => (Json.str p.1, p.2)) := by
  rw [parseValue.eq_def]
  rfl

theorem parseValue_step_arr_nil (f : Nat) (r2 : List Nat) :
    parseValue (f + 1) (0x5B :: (0x5D :: r2)) = some (Json.arr .nil, r2) := by
  rw [parseValue.eq_def]
  rfl

theorem parseValue_step_arr_cons (f c : Nat) (r2 : List Nat)
    (hws : ¬(c = 0x20 ∨ c = 0x09 ∨ c = 0x0A ∨ c = 0x0D)) (hc : ¬(c = 0x5D)) :
    parseValue (f + 1) (0x5B :: (c :: r2)) =
      (parseElems f (c :: r2)).map (fun p => (Json.arr p.1, p.2)) := by
  rw [parseValue.eq_def]
  show (match skipWs (c :: r2) with
    | [] => none
    | c :: r2 =>
        if c = 0x5D then some (Json.arr .nil, r2)
        else (parseElems f (c :: r2)).map (fun p => (Json.arr p.1, p.2))) =
    (parseElems f (c :: r2)).map (fun p => (Json.arr p.1, p.2))
  rw [skipWs_cons c r2 hws]
  simp [hc]

theorem parseValue_step_obj_nil (f : Nat) (r2 : List Nat) :
    parseValue (f + 1) (0x7B :: (0x7D :: r2)) = some (Json.obj .nil, r2) := by
  rw [parseValue.eq_def]
  rfl

theorem parseValue_step_obj_cons (f c : Nat) (r2 : List Nat)
    (hws : ¬(c = 0x20 ∨ c = 0x09 ∨ c = 0x0A ∨ c = 0x0D)) (hc : ¬(c = 0x7D)) :
    parseValue (f + 1) (0x7B :: (c :: r2)) =
      (parseFields f (c :: r2)).map (fun p => (Json.obj p.1, p.2)) := by
  rw [parseValue.eq_def]
  show (match skipWs (c :: r2) with
    | [] => none
    | c :: r2 =>
        if c = 0x7D then some (Json.obj .nil, r2)
        else (parseFields f (c :: r2)).map (fun p => (Json.obj p.1, p.2))) =
    (parseFields f (c :: r2)).map (fun p => (Json.obj p.1, p.2))
  rw [skipWs_cons c r2 hws]
  simp [hc]

theorem parseValue_step_num (f b : Nat) (r : List Nat)
    (hws : ¬(b = 0x20 ∨ b = 0x09 ∨ b = 0x0A ∨ b = 0x0D))
    (h1 : ¬(b = 0x6E)) (h2 : ¬(b = 0x74)) (h3 : ¬(b = 0x66)) (h4 : ¬(b = 0x22))
    (h5 : ¬(b = 0x5B)) (h6 : ¬(b = 0x7B)) :
    parseValue (f + 1) (b :: r) =
      (parseNumber (b :: r)).map (fun p => (Json.num p.1, p.2)) := by
  rw [parseValue.eq_def]
  show (match skipWs (b :: r) with
    | [] => none
    | b :: r =>
      if b = 0x6E then (expectTail [0x75, 0x6C, 0x6C] r).map (fun r2 => (Json.null, r2))
      else if b = 0x74 then
        (expectTail [0x72, 0x75, 0x65] r).map (fun r2 => (Json.bool true, r2))
      else if b = 0x66 then
        (expectTail [0x61, 0x6C, 0x73, 0x65] r).map (fun r2 => (Json.bool false, r2))
      else if b = 0x22 then (parseStringBody r).map (fun p => (Json.str p.1, p.2))
      else if b = 0x5B then
        match skipWs r with
        | [] => none
        | c :: r2 =>
            if c = 0x5D then some (Json.arr .nil, r2)
            else (parseElems f (c :: r2)).map (fun p => (Json.arr p.1, p.2))
      else if b = 0x7B then
        match skipWs r with
        | [] => none
        | c :: r2 =>
            if c = 0x7D then some (Json.obj .nil, r2)
            else (parseFields f (c :: r2)).map (fun p => (Json.obj p.1, p.2))
      else (parseNumber (b :: r)).map (fun p => (Json.num p.1, p.2))) =
    (parseNumber (b :: r)).map (fun p => (Json.num p.1, p.2))
  rw [skipWs_cons b r hws]
  simp [h1, h2, h3, h4, h5, h6]

theorem parseElems_step_comma (f : Nat) (input : List Nat) (v : Json) (R : List Nat)
    (hv : parseValue f input = some (v, 0x2C :: R)) :
    parseElems (f + 1) input =
      (parseElems f R).map (fun p => (JsonList.cons v p.1, p.2)) := by
  rw [parseElems.eq_def]
  show (match parseValue f input with
    | none => none
    | some (v, r1) =>
      match skipWs r1 with
      | [] => none
      | c :: r2 =>
        if c = 0x2C then
          (parseElems f r2).map
            (fun (p : JsonList × List Nat) => (JsonList.cons v p.1, p.2))
        else if c = 0x5D then some (JsonList.cons v .nil, r2)
        else none) = _
  rw [hv]
  rfl

theorem parseElems_step_close (f : Nat) (input : List Nat) (v : Json) (R : List Nat)
    (hv : parseValue f input = some (v, 0x5D :: R)) :
    parseElems (f + 1) input = some (JsonList.cons v .nil, R) := by
  rw [parseElems.eq_def]
  show (match parseValue f input with
    | none => none
    | some (v, r1) =>
      match skipWs r1 with
      | [] => none
      | c :: r2 =>
        if c = 0x2C then
          (parseElems f r2).map
            (fun (p : JsonList × List Nat) => (JsonList.cons v p.1, p.2))
        else if c = 0x5D then some (JsonList.cons v .nil, r2)
        else none) = _
  rw [hv]
  rfl

theorem parseFields_step_comma (f : Nat) (r : List Nat) (k : List Nat) (r2 : List Nat)
    (v : Json) (r4 : List Nat)
    (hk : parseStringBody r = some (k, 0x3A :: r2))
    (hv : parseValue f r2 = some (v, 0x2C :: r4)) :
    parseFields (f + 1) (0x22 :: r) =
      (parseFields f r4).map (fun p => (JsonFields.cons k v p.1, p.2)) := by
  rw [parseFields.eq_def]
  show (match skipWs (0x22 :: r) with
    | [] => none
    | b :: r => _) = _
  rw [skipWs_cons 0x22 r (by decide)]
  show (if (0x22 : Nat) = 0x22 then
      match parseStringBody r with
      | none => none
      | some (k, r1) => _
    else none) = _
  rw [if_pos rfl, hk]
  show (match skipWs (0x3A :: r2) with
    | [] => none
    | c :: r2 => _) = _
  rw [skipWs_cons 0x3A r2 (by decide)]
  show (if (0x3A : Nat) = 0x3A then
      match parseValue f r2 with
      | none => none
      | some (v, r3) => _
    else none) = _
  rw [if_pos rfl, hv]
  rfl

theorem parseFields_step_close (f : Nat) (r : List Nat) (k : List Nat) (r2 : List Nat)
    (v : Json) (r4 : List Nat)
    (hk : parseStringBody r = some (k, 0x3A :: r2))
    (hv : parseValue f r2 = some (v, 0x7D :: r4)) :
    parseFields (f + 1) (0x22 :: r) = some (JsonFields.cons k v .nil, r4) := by
  rw [parseFields.eq_def]
  show (match skipWs (0x22 :: r) with
    | [] => none
    | b :: r => _) = _
  rw [skipWs_cons 0x22 r (by decide)]
  show (if (0x22 : Nat) = 0x22 then
      match parseStringBody r with
      | none => none
      | some (k, r1) => _
    else none) = _
  rw [if_pos rfl, hk]
  show (match skipWs (0x3A :: r2) with
    | [] => none
    | c :: r2 => _) = _
  rw [skipWs_cons 0x3A r2 (by decide)]
  show (if (0x3A : Nat) = 0x3A then
      match parseValue f r2 with
      | none => none
      | some (v, r3) => _
    else none) = _
  rw [if_pos rfl, hv]
  rfl

mutual

/-- Round trip of the value parser over the serializer: parsing a
rendered value (with any fuel at least its size, and any continuation
that cannot extend a number) yields the value and the continuation. -/
theorem parseValue_render : ∀ (v : Json) (fuel : Nat) (rest : List Nat),
    jsize v ≤ fuel → numGuard rest →
    parseValue fuel (renderJson v ++ rest) = some (v, rest) := by
  intro v fuel rest hfuel hng
  obtain ⟨f, rfl⟩ : ∃ f, fuel = f + 1 :=
    ⟨fuel - 1, by have := jsize_pos v; omega⟩
  cases v with
  | null =>
    show parseValue (f + 1) ((0x6E :: [0x75, 0x6C, 0x6C]) ++ rest) = some (.null, rest)
    rw [List.cons_append, parseValue_step_null, expectTail_self]
    rfl
  | bool bv =>
    cases bv with
    | true =>
      show parseValue (f + 1) ((0x74 :: [0x72, 0x75, 0x65]) ++ rest) =
        some (.bool true, rest)
      rw [List.cons_append, parseValue_step_true, expectTail_self]
      rfl
    | false =>
      show parseValue (f + 1) ((0x66 :: [0x61, 0x6C, 0x73, 0x65]) ++ rest) =
        some (.bool false, rest)
      rw [List.cons_append, parseValue_step_false, expectTail_self]
      rfl
  | num z =>
    have hd : ∃ d t, renderInt z = d :: t ∧ (d = 0x2D ∨ (48 ≤ d ∧ d ≤ 57)) := by
      cases z with
      | ofNat n =>
        cases heq : natDigits n with
        | nil => exact absurd heq (natDigits_ne_nil n)
        | cons d t =>
          exact ⟨d, t, heq, Or.inr (natDigits_mem n d (by rw [heq]; simp))⟩
      | negSucc m => exact ⟨0x2D, _, rfl, Or.inl rfl⟩
    obtain ⟨d, t, heq, hdr⟩ := hd
    show parseValue (f + 1) (renderInt z ++ rest) = some (.num z, rest)
    rw [heq, List.cons_append,
      parseValue_step_num f d (t ++ rest) (by omega) (by omega) (by omega)
        (by omega) (by omega) (by omega) (by omega),
      ← List.cons_append, ← heq, parseNumber_renderInt z rest hng]
    rfl
  | str s =>
    show parseValue (f + 1) ((0x22 :: (escapeBytes s ++ [0x22])) ++ rest) =
      some (.str s, rest)
    rw [List.cons_append, parseValue_step_quote, List.append_assoc,
      List.singleton_append, parseStringBody_escape]
    rfl
  | arr l =>
    cases l with
    | nil =>
      show parseValue (f + 1) ((0x5B :: ([] ++ [0x5D])) ++ rest) =
        some (.arr .nil, rest)
      rw [List.cons_append, List.nil_append, List.singleton_append]
      exact parseValue_step_arr_nil f rest
    | cons v tl =>
      obtain ⟨hb, ht, hveq, hok⟩ := renderJson_head v
      have hprops := headOkB_props hb hok
      have hre : ∃ R, renderElems (JsonList.cons v tl) = hb :: R := by
        cases tl with
        | nil =>
          exact ⟨ht, by
            rw [show renderElems (JsonList.cons v .nil) = renderJson v from rfl, hveq]⟩
        | cons w tl2 =>
          refine ⟨ht ++ (0x2C :: renderElems (JsonList.cons w tl2)), ?_⟩
          rw [show renderElems (JsonList.cons v (JsonList.cons w tl2)) =
            renderJson v ++ (0x2C :: renderElems (JsonList.cons w tl2)) from rfl, hveq]
          rfl
      obtain ⟨R, hR⟩ := hre
      show parseValue (f + 1) ((0x5B :: (renderElems (JsonList.cons v tl) ++ [0x5D]))
        ++ rest) = some (.arr (JsonList.cons v tl), rest)
      rw [List.cons_append, List.append_assoc, List.singleton_append, hR,
        List.cons_append,
        parseValue_step_arr_cons f hb (R ++ 0x5D :: rest) hprops.1 hprops.2.1,
        ← List.cons_append, ← hR,
        parseElems_render (JsonList.cons v tl) f rest
          (by simp only [jsize] at hfuel; omega) (by intro hcon; cases hcon)]
      rfl
  | obj fs =>
    cases fs with
    | nil =>
      show parseValue (f + 1) ((0x7B :: ([] ++ [0x7D])) ++ rest) =
        some (.obj .nil, rest)
      rw [List.cons_append, List.nil_append, List.singleton_append]
      exact parseValue_step_obj_nil f rest
    | cons k v tl =>
      have hre : ∃ R, renderFields (JsonFields.cons k v tl) = 0x22 :: R := by
        cases tl with
        | nil => exact ⟨escapeBytes k ++ (0x22 :: (0x3A :: renderJson v)), rfl⟩
        | cons k2 w tl2 =>
          exact ⟨escapeBytes k ++ (0x22 :: (0x3A :: renderJson v)) ++
            (0x2C :: renderFields (JsonFields.cons k2 w tl2)), rfl⟩
      obtain ⟨R, hR⟩ := hre
      show parseValue (f + 1) ((0x7B :: (renderFields (JsonFields.cons k v tl) ++ [0x7D]))
        ++ rest) = some (.obj (JsonFields.cons k v tl), rest)
      rw [List.cons_append, List.append_assoc, List.singleton_append, hR,
        List.cons_append,
        parseValue_step_obj_cons f 0x22 (R ++ 0x7D :: rest) (by decide) (by decide),
        ← List.cons_append, ← hR,
        parseFields_render (JsonFields.cons k v tl) f rest
          (by simp only [jsize] at hfuel; omega) (by intro hcon; cases hcon)]
      rfl

/-- Round trip of the array-element parser over the element serializer. -/
theorem parseElems_render : ∀ (l : JsonList) (fuel : Nat) (rest : List Nat),
    lsize l ≤ fuel → l ≠ .nil →
    parseElems fuel (renderElems l ++ (0x5D :: rest)) = some (l, rest) := by
  intro l fuel rest hfuel hne
  cases l with
  | nil => exact absurd rfl hne
  | cons v tl =>
    obtain ⟨f, rfl⟩ : ∃ f, fuel = f + 1 :=
      ⟨fuel - 1, by have := jsize_pos v; simp only [lsize] at hfuel; omega⟩
    have hszv : jsize v ≤ f := by
      have := jsize_pos v
      simp only [lsize] at hfuel
      omega
    cases tl with
    | nil =>
      have hv : parseValue f (renderJson v ++ (0x5D :: rest)) =
          some (v, 0x5D :: rest) :=
        parseValue_render v f (0x5D :: rest) hszv
          (numGuard_cons 0x5D rest (by decide) (by decide) (by decide) (by decide))
      rw [show renderElems (JsonList.cons v .nil) = renderJson v from rfl]
      exact parseElems_step_close f _ v rest hv
    | cons w tl2 =>
      have hv : parseValue f (renderJson v ++
          (0x2C :: (renderElems (JsonList.cons w tl2) ++ (0x5D :: rest)))) =
          some (v, 0x2C :: (renderElems (JsonList.cons w tl2) ++ (0x5D :: rest))) :=
        parseValue_render v f _ hszv
          (numGuard_cons 0x2C _ (by decide) (by decide) (by decide) (by decide))
      rw [show renderElems (JsonList.cons v (JsonList.cons w tl2)) =
        renderJson v ++ (0x2C :: renderElems (JsonList.cons w tl2)) from rfl,
        List.append_assoc, List.cons_append,
        parseElems_step_comma f _ v _ hv,
        parseElems_render (JsonList.cons w tl2) f rest
          (by simp only [lsize] at hfuel ⊢; have := jsize_pos v; omega)
          (by intro hcon; cases hcon)]
      rfl

/-- Round trip of the object-field parser over the field serializer. -/
theorem parseFields_render : ∀ (fs : JsonFields) (fuel : Nat) (rest : List Nat),
    fsize fs ≤ fuel → fs ≠ .nil →
    parseFields fuel (renderFields fs ++ (0x7D :: rest)) = some (fs, rest) := by
  intro fs fuel rest hfuel hne
  cases fs with
  | nil => exact absurd rfl hne
  | cons k v tl =>
    obtain ⟨f, rfl⟩ : ∃ f, fuel = f + 1 :=
      ⟨fuel - 1, by have := jsize_pos v; simp only [fsize] at hfuel; omega⟩
    have hszv : jsize v ≤ f := by
      have := jsize_pos v
      simp only [fsize] at hfuel
      omega
    cases tl with
    | nil =>
      have hv : parseValue f (renderJson v ++ (0x7D :: rest)) =
          some (v, 0x7D :: rest) :=
        parseValue_render v f (0x7D :: rest) hszv
          (numGuard_cons 0x7D rest (by decide) (by decide) (by decide) (by decide))
      have hk : parseStringBody (escapeBytes k ++
          (0x22 :: (0x3A :: (renderJson v ++ (0x7D :: rest))))) =
          some (k, 0x3A :: (renderJson v ++ (0x7D :: rest))) :=
        parseStringBody_escape k _
      rw [show renderFields (JsonFields.cons k v .nil) =
        0x22 :: (escapeBytes k ++ (0x22 :: (0x3A :: renderJson v))) from rfl]
      show parseFields (f + 1) (0x22 :: ((escapeBytes k ++
        (0x22 :: (0x3A :: renderJson v))) ++ (0x7D :: rest))) =
        some (JsonFields.cons k v .nil, rest)
      rw [List.append_assoc]
      exact parseFields_step_close f _ k _ v rest (by
        simpa using hk) hv
    | cons k2 w tl2 =>
      have hv : parseValue f (renderJson v ++
          (0x2C :: (renderFields (JsonFields.cons k2 w tl2) ++ (0x7D :: rest)))) =
          some (v, 0x2C :: (renderFields (JsonFields.cons k2 w tl2) ++ (0x7D :: rest))) :=
        parseValue_render v f _ hszv
          (numGuard_cons 0x2C _ (by decide) (by decide) (by decide) (by decide))
      have hk : parseStringBody (escapeBytes k ++
          (0x22 :: (0x3A :: (renderJson v ++
            (0x2C :: (renderFields (JsonFields.cons k2 w tl2) ++ (0x7D :: rest))))))) =
          some (k, 0x3A :: (renderJson v ++
            (0x2C :: (renderFields (JsonFields.cons k2 w tl2) ++ (0x7D :: rest))))) :=
        parseStringBody_escape k _
      rw [show renderFields (JsonFields.cons k v (JsonFields.cons k2 w tl2)) =
        0x22 :: (escapeBytes k ++ (0x22 :: (0x3A :: renderJson v))) ++
          (0x2C :: renderFields (JsonFields.cons k2 w tl2)) from rfl]
      show parseFields (f + 1) ((0x22 :: ((escapeBytes k ++
        (0x22 :: (0x3A :: renderJson v))) ++
          (0x2C :: renderFields (JsonFields.cons k2 w tl2)))) ++ (0x7D :: rest)) =
        some (JsonFields.cons k v (JsonFields.cons k2 w tl2), rest)
      rw [List.cons_append,
        parseFields_step_comma f _ k _ v
          (renderFields (JsonFields.cons k2 w tl2) ++ (0x7D :: rest))
          (by simpa [List.append_assoc] using hk)
          (by simpa [List.append_assoc] using hv),
        parseFields_render (JsonFields.cons k2 w tl2) f rest
          (by simp only [fsize] at hfuel ⊢; have := jsize_pos v; omega)
          (by intro hcon; cases hcon)]
      rfl

end

mutual

/-- The parser fuel bound: a value's node count never exceeds its
rendered length. -/
theorem jsize_le_render : ∀ v : Json, jsize v ≤ (renderJson v).length := by
  intro v
  cases v with
  | null => decide
  | bool bv => cases bv <;> decide
  | num z =>
    show 1 ≤ (renderInt z).length
    cases z with
    | ofNat n =>
      show 1 ≤ (natDigits n).length
      cases heq : natDigits n with
      | nil => exact absurd heq (natDigits_ne_nil n)
      | cons d t => simp
    | negSucc m => simp [renderInt]
  | str s =>
    show 1 ≤ (0x22 :: (escapeBytes s ++ [0x22])).length
    simp
  | arr l =>
    show lsize l + 1 ≤ (0x5B :: (renderElems l ++ [0x5D])).length
    have := lsize_le_renderElems l
    simp only [List.length_cons, List.length_append, List.length_singleton]
    omega
  | obj fs =>
    show fsize fs + 1 ≤ (0x7B :: (renderFields fs ++ [0x7D])).length
    have := fsize_le_renderFields fs
    simp only [List.length_cons, List.length_append, List.length_singleton]
    omega

/-- Element-list size bound against the rendered length. -/
theorem lsize_le_renderElems : ∀ l : JsonList, lsize l ≤ (renderElems l).length + 1 := by
  intro l
  cases l with
  | nil => decide
  | cons v tl =>
    cases tl with
    | nil =>
      show jsize v + lsize .nil + 1 ≤ (renderJson v).length + 1
      have := jsize_le_render v
      simp only [lsize]
      omega
    | cons w tl2 =>
      show jsize v + lsize (JsonList.cons w tl2) + 1 ≤
        (renderJson v ++ (0x2C :: renderElems (JsonList.cons w tl2))).length + 1
      have h1 := jsize_le_render v
      have h2 := lsize_le_renderElems (JsonList.cons w tl2)
      simp only [List.length_append, List.length_cons]
      omega

/-- Field-list size bound against the rendered length. -/
theorem fsize_le_renderFields : ∀ fs : JsonFields,
    fsize fs ≤ (renderFields fs).length + 1 := by
  intro fs
  cases fs with
  | nil => decide
  | cons k v tl =>
    cases tl with
    | nil =>
      show jsize v + fsize .nil + 1 ≤
        (0x22 :: (escapeBytes k ++ (0x22 :: (0x3A :: renderJson v)))).length + 1
      have := jsize_le_render v
      simp only [fsize, List.length_cons, List.length_append]
      omega
    | cons k2 w tl2 =>
      show jsize v + fsize (JsonFields.cons k2 w tl2) + 1 ≤
        ((0x22 :: (escapeBytes k ++ (0x22 :: (0x3A :: renderJson v)))) ++
          (0x2C :: renderFields (JsonFields.cons k2 w tl2))).length + 1
      have h1 := jsize_le_render v
      have h2 := fsize_le_renderFields (JsonFields.cons k2 w tl2)
      simp only [List.length_append, List.length_cons]
      omega

end

theorem isPrefixOf_append_self (pat rest : List Nat) :
    pat.isPrefixOf (pat ++ rest) = true := by
  rw [List.isPrefixOf_iff_prefix]
  exact List.prefix_append pat rest

theorem isSuffixOf_append_self (pat front : List Nat) :
    pat.isSuffixOf (front ++ pat) = true := by
  rw [List.isSuffixOf_iff_suffix]
  exact List.suffix_append front pat

theorem vuTail2_nil (lo hi : Nat) : vuTail2 lo hi [] = false := rfl

theorem vuTail2_cons (lo hi c : Nat) (r : List Nat) :
    vuTail2 lo hi (c :: r) = ((lo ≤ c && c ≤ hi) && validUtf8 r) := rfl

theorem vuTail3_nil (lo hi : Nat) : vuTail3 lo hi [] = false := rfl

theorem vuTail3_cons (lo hi c : Nat) (r : List Nat) :
    vuTail3 lo hi (c :: r) = ((lo ≤ c && c ≤ hi) && vuTail2 0x80 0xBF r) := rfl

theorem vuTail4_nil (lo hi : Nat) : vuTail4 lo hi [] = false := rfl

theorem vuTail4_cons (lo hi c : Nat) (r : List Nat) :
    vuTail4 lo hi (c :: r) = ((lo ≤ c && c ≤ hi) && vuTail3 0x80 0xBF r) := rfl

theorem validUtf8_cons (b : Nat) (r : List Nat) :
    validUtf8 (b :: r) =
      (if b ≤ 0x7F then validUtf8 r
      else if 0xC2 ≤ b ∧ b ≤ 0xDF then vuTail2 0x80 0xBF r
      else if b = 0xE0 then vuTail3 0xA0 0xBF r
      else if (0xE1 ≤ b ∧ b ≤ 0xEC) ∨ b = 0xEE ∨ b = 0xEF then vuTail3 0x80 0xBF r
      else if b = 0xED then vuTail3 0x80 0x9F r
      else if b = 0xF0 then vuTail4 0x90 0xBF r
      else if 0xF1 ≤ b ∧ b ≤ 0xF3 then vuTail4 0x80 0xBF r
      else if b = 0xF4 then vuTail4 0x80 0x8F r
      else false) := rfl

theorem validUtf8_cons_ascii (b : Nat) (r : List Nat) (h : b ≤ 0x7F) :
    validUtf8 (b :: r) = validUtf8 r := by
  rw [validUtf8_cons, if_pos h]

theorem validUtf8_of_ascii : ∀ l : List Nat, (∀ b ∈ l, b ≤ 0x7F) →
    validUtf8 l = true := by
  intro l
  induction l with
  | nil => intro _; rfl
  | cons b r ih =>
    intro h
    rw [validUtf8_cons_ascii b r (h b (by simp))]
    exact ih (fun c hc => h c (by simp [hc]))

theorem utf8_append_all : ∀ (n : Nat) (a : List Nat), a.length ≤ n → ∀ b : List Nat,
    (validUtf8 a = true → validUtf8 (a ++ b) = validUtf8 b) ∧
    (∀ lo hi, vuTail2 lo hi a = true → vuTail2 lo hi (a ++ b) = validUtf8 b) ∧
    (∀ lo hi, vuTail3 lo hi a = true → vuTail3 lo hi (a ++ b) = validUtf8 b) ∧
    (∀ lo hi, vuTail4 lo hi a = true → vuTail4 lo hi (a ++ b) = validUtf8 b) := by
  intro n
  induction n with
  | zero =>
    intro a ha b
    have : a = [] := List.length_eq_zero.mp (by omega)
    subst this
    refine ⟨fun _ => rfl, ?_, ?_, ?_⟩ <;>
      (intro lo hi hv;
       first
         | (rw [vuTail2_nil] at hv; simp at hv)
         | (rw [vuTail3_nil] at hv; simp at hv)
         | (rw [vuTail4_nil] at hv; simp at hv))
  | succ m ih =>
    intro a ha b
    match a with
    | [] =>
      refine ⟨fun _ => rfl, ?_, ?_, ?_⟩ <;>
        (intro lo hi hv;
         first
           | (rw [vuTail2_nil] at hv; simp at hv)
           | (rw [vuTail3_nil] at hv; simp at hv)
           | (rw [vuTail4_nil] at hv; simp at hv))
    | hb :: r =>
      have hr : r.length ≤ m := by simp at ha; omega
      refine ⟨?_, ?_, ?_, ?_⟩
      · intro hv
        rw [List.cons_append, validUtf8_cons] 
        rw [validUtf8_cons] at hv
        split_ifs at hv ⊢
        · exact (ih r hr b).1 hv
        · exact (ih r hr b).2.1 _ _ hv
        · exact (ih r hr b).2.2.1 _ _ hv
        · exact (ih r hr b).2.2.1 _ _ hv
        · exact (ih r hr b).2.2.1 _ _ hv
        · exact (ih r hr b).2.2.2 _ _ hv
        · exact (ih r hr b).2.2.2 _ _ hv
        · exact (ih r hr b).2.2.2 _ _ hv
      · intro lo hi hv
        rw [List.cons_append, vuTail2_cons]
        rw [vuTail2_cons] at hv
        rw [Bool.and_eq_true] at hv
        rw [hv.1, Bool.true_and]
        exact (ih r hr b).1 hv.2
      · intro lo hi hv
        rw [List.cons_append, vuTail3_cons]
        rw [vuTail3_cons] at hv
        rw [Bool.and_eq_true] at hv
        rw [hv.1, Bool.true_and]
        exact (ih r hr b).2.1 _ _ hv.2
      · intro lo hi hv
        rw [List.cons_append, vuTail4_cons]
        rw [vuTail4_cons] at hv
        rw [Bool.and_eq_true] at hv
        rw [hv.1, Bool.true_and]
        exact (ih r hr b).2.2.1 _ _ hv.2

theorem validUtf8_append (a b : List Nat) (ha : validUtf8 a = true) :
    validUtf8 (a ++ b) = validUtf8 b :=
  (utf8_append_all a.length a (by omega) b).1 ha

theorem validUtf8_head_not_cont (b : Nat) (r : List Nat)
    (h : validUtf8 (b :: r) = true) : b ≤ 0x7F ∨ 0xC2 ≤ b := by
  rw [validUtf8_cons] at h
  split_ifs at h <;> omega

theorem escapeBytes_nil : escapeBytes [] = [] := rfl

theorem escapeBytes_cons (b : Nat) (r : List Nat) :
    escapeBytes (b :: r) = escapeByte b ++ escapeBytes r := rfl

theorem escapeByte_ascii (b : Nat) (h : b ≤ 0x7F) :
    ∀ c ∈ escapeByte b, c ≤ 0x7F := by
  intro c hc
  have hx1 : hexDigitChar (b / 16) ≤ 0x7F := by
    rw [hexDigitChar]
    split_ifs <;> omega
  have hx2 : hexDigitChar (b % 16) ≤ 0x7F := by
    rw [hexDigitChar]
    split_ifs <;> omega
  rw [escapeByte] at hc
  split_ifs at hc <;> simp at hc <;> omega

theorem escapeByte_raw (b : Nat) (h20 : ¬(b < 0x20)) (h22 : ¬(b = 0x22))
    (h5C : ¬(b = 0x5C)) : escapeByte b = [b] := by
  rw [escapeByte]
  have h08 : ¬(b = 0x08) := by omega
  have h09 : ¬(b = 0x09) := by omega
  have h0A : ¬(b = 0x0A) := by omega
  have h0C : ¬(b = 0x0C) := by omega
  have h0D : ¬(b = 0x0D) := by omega
  simp [h22, h5C, h08, h09, h0A, h0C, h0D, h20]

theorem escape_valid_all : ∀ (n : Nat) (a : List Nat), a.length ≤ n →
    (validUtf8 a = true → validUtf8 (escapeBytes a) = true) ∧
    (∀ lo hi, 0x80 ≤ lo → vuTail2 lo hi a = true →
      vuTail2 lo hi (escapeBytes a) = true) ∧
    (∀ lo hi, 0x80 ≤ lo → vuTail3 lo hi a = true →
      vuTail3 lo hi (escapeBytes a) = true) ∧
    (∀ lo hi, 0x80 ≤ lo → vuTail4 lo hi a = true →
      vuTail4 lo hi (escapeBytes a) = true) := by
  intro n
  induction n with
  | zero =>
    intro a ha
    have : a = [] := List.length_eq_zero.mp (by omega)
    subst this
    refine ⟨fun _ => rfl, ?_, ?_, ?_⟩ <;>
      (intro lo hi hlo hv;
       first
         | (rw [vuTail2_nil] at hv; simp at hv)
         | (rw [vuTail3_nil] at hv; simp at hv)
         | (rw [vuTail4_nil] at hv; simp at hv))
  | succ m ih =>
    intro a ha
    match a with
    | [] =>
      refine ⟨fun _ => rfl, ?_, ?_, ?_⟩ <;>
        (intro lo hi hlo hv;
         first
           | (rw [vuTail2_nil] at hv; simp at hv)
           | (rw [vuTail3_nil] at hv; simp at hv)
           | (rw [vuTail4_nil] at hv; simp at hv))
    | hb :: r =>
      have hr : r.length ≤ m := by simp at ha; omega
      refine ⟨?_, ?_, ?_, ?_⟩
      · intro hv
        rw [validUtf8_cons] at hv
        rw [escapeBytes_cons]
        by_cases hba : hb ≤ 0x7F
        · rw [if_pos hba] at hv
          rw [validUtf8_append (escapeByte hb) (escapeBytes r)
            (validUtf8_of_ascii _ (escapeByte_ascii hb hba))]
          exact (ih r hr).1 hv
        · have hbraw : escapeByte hb = [hb] :=
            escapeByte_raw hb (by omega) (by omega) (by omega)
          rw [hbraw, List.singleton_append, validUtf8_cons, if_neg hba]
          rw [if_neg hba] at hv
          split_ifs at hv ⊢ <;>
            first
              | exact (ih r hr).2.1 _ _ (by omega) hv
              | exact (ih r hr).2.2.1 _ _ (by omega) hv
              | exact (ih r hr).2.2.2 _ _ (by omega) hv
              | simp at hv
      · intro lo hi hlo hv
        rw [vuTail2_cons, Bool.and_eq_true] at hv
        have hc : 0x80 ≤ hb := by
          have := hv.1
          simp at this
          omega
        rw [escapeBytes_cons,
          escapeByte_raw hb (by omega) (by omega) (by omega),
          List.singleton_append, vuTail2_cons, hv.1, Bool.true_and]
        exact (ih r hr).1 hv.2
      · intro lo hi hlo hv
        rw [vuTail3_cons, Bool.and_eq_true] at hv
        have hc : 0x80 ≤ hb := by
          have := hv.1
          simp at this
          omega
        rw [escapeBytes_cons,
          escapeByte_raw hb (by omega) (by omega) (by omega),
          List.singleton_append, vuTail3_cons, hv.1, Bool.true_and]
        exact (ih r hr).2.1 _ _ (by omega) hv.2
      · intro lo hi hlo hv
        rw [vuTail4_cons, Bool.and_eq_true] at hv
        have hc : 0x80 ≤ hb := by
          have := hv.1
          simp at this
          omega
        rw [escapeBytes_cons,
          escapeByte_raw hb (by omega) (by omega) (by omega),
          List.singleton_append, vuTail4_cons, hv.1, Bool.true_and]
        exact (ih r hr).2.2.1 _ _ (by omega) hv.2

theorem escapeBytes_valid (s : List Nat) (h : validUtf8 s = true) :
    validUtf8 (escapeBytes s) = true :=
  (escape_valid_all s.length s (by omega)).1 h

theorem renderInt_ascii (z : Int) : ∀ b ∈ renderInt z, b ≤ 0x7F := by
  intro b hb
  cases z with
  | ofNat n =>
    have := natDigits_mem n b hb
    omega
  | negSucc m =>
    rw [show renderInt (Int.negSucc m) = 0x2D :: natDigits (m + 1) from rfl] at hb
    simp at hb
    rcases hb with hb | hb
    · omega
    · have := natDigits_mem (m + 1) b hb
      omega

mutual

/-- A constructible value renders to valid UTF-8 (so the encoded wire
frame passes the decoder's from_utf8 check). -/
theorem renderJson_valid : ∀ v : Json, wfJson v = true →
    validUtf8 (renderJson v) = true := by
  intro v hwf
  cases v with
  | null => decide
  | bool bv => cases bv <;> decide
  | num z =>
    show validUtf8 (renderInt z) = true
    exact validUtf8_of_ascii _ (renderInt_ascii z)
  | str s =>
    show validUtf8 (0x22 :: (escapeBytes s ++ [0x22])) = true
    rw [validUtf8_cons_ascii _ _ (by omega),
      validUtf8_append _ _ (escapeBytes_valid s hwf)]
    decide
  | arr l =>
    show validUtf8 (0x5B :: (renderElems l ++ [0x5D])) = true
    rw [validUtf8_cons_ascii _ _ (by omega),
      validUtf8_append _ _ (renderElems_valid l hwf)]
    decide
  | obj fs =>
    show validUtf8 (0x7B :: (renderFields fs ++ [0x7D])) = true
    rw [validUtf8_cons_ascii _ _ (by omega),
      validUtf8_append _ _ (renderFields_valid fs hwf)]
    decide

/-- Rendered element lists of constructible arrays are valid UTF-8. -/
theorem renderElems_valid : ∀ l : JsonList, wfJsonList l = true →
    validUtf8 (renderElems l) = true := by
  intro l hwf
  cases l with
  | nil => decide
  | cons v tl =>
    rw [show wfJsonList (JsonList.cons v tl) = (wfJson v && wfJsonList tl) from rfl,
      Bool.and_eq_true] at hwf
    cases tl with
    | nil =>
      show validUtf8 (renderJson v) = true
      exact renderJson_valid v hwf.1
    | cons w tl2 =>
      show validUtf8 (renderJson v ++ (0x2C :: renderElems (JsonList.cons w tl2))) = true
      rw [validUtf8_append _ _ (renderJson_valid v hwf.1),
        validUtf8_cons_ascii _ _ (by omega)]
      exact renderElems_valid (JsonList.cons w tl2) hwf.2

/-- Rendered field lists of constructible objects are valid UTF-8. -/
theorem renderFields_valid : ∀ fs : JsonFields, wfJsonFields fs = true →
    validUtf8 (renderFields fs) = true := by
  intro fs hwf
  cases fs with
  | nil => decide
  | cons k v tl =>
    rw [show wfJsonFields (JsonFields.cons k v tl) =
      (validUtf8 k && (wfJson v && wfJsonFields tl)) from rfl,
      Bool.and_eq_true, Bool.and_eq_true] at hwf
    cases tl with
    | nil =>
      show validUtf8 (0x22 :: (escapeBytes k ++ (0x22 :: (0x3A :: renderJson v)))) = true
      rw [validUtf8_cons_ascii _ _ (by omega),
        validUtf8_append _ _ (escapeBytes_valid k hwf.1),
        validUtf8_cons_ascii _ _ (by omega),
        validUtf8_cons_ascii _ _ (by omega)]
      exact renderJson_valid v hwf.2.1
    | cons k2 w tl2 =>
      show validUtf8 ((0x22 :: (escapeBytes k ++ (0x22 :: (0x3A :: renderJson v)))) ++
        (0x2C :: renderFields (JsonFields.cons k2 w tl2))) = true
      have hfield : validUtf8
          (0x22 :: (escapeBytes k ++ (0x22 :: (0x3A :: renderJson v)))) = true := by
        rw [validUtf8_cons_ascii _ _ (by omega),
          validUtf8_append _ _ (escapeBytes_valid k hwf.1),
          validUtf8_cons_ascii _ _ (by omega),
          validUtf8_cons_ascii _ _ (by omega)]
        exact renderJson_valid v hwf.2.1
      rw [validUtf8_append _ _ hfield, validUtf8_cons_ascii _ _ (by omega)]
      exact renderFields_valid (JsonFields.cons k2 w tl2) hwf.2.2

end

theorem jLookup_nil (key : List Nat) : jLookup .nil key = none := rfl

theorem jLookup_cons (k : List Nat) (v : Json) (tl : JsonFields) (key : List Nat) :
    jLookup (.cons k v tl) key = if k = key then some v else jLookup tl key := rfl

theorem jLookup_cons_self (k : List Nat) (v : Json) (tl : JsonFields) :
    jLookup (.cons k v tl) k = some v := by
  rw [jLookup_cons, if_pos rfl]

theorem jLookup_cons_ne (k : List Nat) (v : Json) (tl : JsonFields) (key : List Nat)
    (h : ¬(k = key)) : jLookup (.cons k v tl) key = jLookup tl key := by
  rw [jLookup_cons, if_neg h]

theorem jLookup_optStr_ne (k : List Nat) (o : Option (List Nat)) (rest : JsonFields)
    (key : List Nat) (h : ¬(k = key)) :
    jLookup (optStrField k o rest) key = jLookup rest key := by
  cases o with
  | none => rfl
  | some s => exact jLookup_cons_ne k _ rest key h

theorem jLookup_optBool_ne (k : List Nat) (o : Option Bool) (rest : JsonFields)
    (key : List Nat) (h : ¬(k = key)) :
    jLookup (optBoolField k o rest) key = jLookup rest key := by
  cases o with
  | none => rfl
  | some b => exact jLookup_cons_ne k _ rest key h

theorem jLookup_optJson_ne (k : List Nat) (o : Option Json) (rest : JsonFields)
    (key : List Nat) (h : ¬(k = key)) :
    jLookup (optJsonField k o rest) key = jLookup rest key := by
  cases o with
  | none => rfl
  | some v => exact jLookup_cons_ne k _ rest key h

theorem jLookup_optStr_self (k : List Nat) (o : Option (List Nat)) (rest : JsonFields)
    (hrest : jLookup rest k = none) :
    jLookup (optStrField k o rest) k = o.map Json.str := by
  cases o with
  | none => exact hrest
  | some s => exact jLookup_cons_self k _ rest

theorem jLookup_optBool_self (k : List Nat) (o : Option Bool) (rest : JsonFields)
    (hrest : jLookup rest k = none) :
    jLookup (optBoolField k o rest) k = o.map Json.bool := by
  cases o with
  | none => exact hrest
  | some b => exact jLookup_cons_self k _ rest

theorem jLookup_optJson_self (k : List Nat) (o : Option Json) (rest : JsonFields)
    (hrest : jLookup rest k = none) :
    jLookup (optJsonField k o rest) k = o := by
  cases o with
  | none => exact hrest
  | some v => exact jLookup_cons_self k _ rest

theorem lookup_cmd (m : KittyMessage) :
    jLookup m.toJsonFields cmdKey = some (.str m.cmd) := by
  rw [KittyMessage.toJsonFields, jLookup_cons_self]

theorem lookup_version (m : KittyMessage) :
    jLookup m.toJsonFields versionKey = some (.arr (natsToJsonList m.version)) := by
  rw [KittyMessage.toJsonFields, jLookup_cons_ne _ _ _ _ (by decide),
    jLookup_cons_self]

theorem lookup_no_response (m : KittyMessage) :
    jLookup m.toJsonFields noResponseKey = m.no_response.map Json.bool := by
  rw [KittyMessage.toJsonFields, jLookup_cons_ne _ _ _ _ (by decide),
    jLookup_cons_ne _ _ _ _ (by decide)]
  exact jLookup_optBool_self _ _ _ (by
    rw [jLookup_optStr_ne _ _ _ _ (by decide), jLookup_optJson_ne _ _ _ _ (by decide),
      jLookup_optStr_ne _ _ _ _ (by decide), jLookup_optBool_ne _ _ _ _ (by decide),
      jLookup_optStr_ne _ _ _ _ (by decide), jLookup_optBool_ne _ _ _ _ (by decide),
      jLookup_nil])

theorem lookup_kitty_window_id (m : KittyMessage) :
    jLookup m.toJsonFields kittyWindowIdKey = m.kitty_window_id.map Json.str := by
  rw [KittyMessage.toJsonFields, jLookup_cons_ne _ _ _ _ (by decide),
    jLookup_cons_ne _ _ _ _ (by decide), jLookup_optBool_ne _ _ _ _ (by decide)]
  exact jLookup_optStr_self _ _ _ (by
    rw [jLookup_optJson_ne _ _ _ _ (by decide), jLookup_optStr_ne _ _ _ _ (by decide),
      jLookup_optBool_ne _ _ _ _ (by decide), jLookup_optStr_ne _ _ _ _ (by decide),
      jLookup_optBool_ne _ _ _ _ (by decide), jLookup_nil])

theorem lookup_payload (m : KittyMessage) :
    jLookup m.toJsonFields payloadKey = m.payload := by
  rw [KittyMessage.toJsonFields, jLookup_cons_ne _ _ _ _ (by decide),
    jLookup_cons_ne _ _ _ _ (by decide), jLookup_optBool_ne _ _ _ _ (by decide),
    jLookup_optStr_ne _ _ _ _ (by decide)]
  exact jLookup_optJson_self _ _ _ (by
    rw [jLookup_optStr_ne _ _ _ _ (by decide), jLookup_optBool_ne _ _ _ _ (by decide),
      jLookup_optStr_ne _ _ _ _ (by decide), jLookup_optBool_ne _ _ _ _ (by decide),
      jLookup_nil])

theorem lookup_async_id (m : KittyMessage) :
    jLookup m.toJsonFields asyncIdKey = m.async_id.map Json.str := by
  rw [KittyMessage.toJsonFields, jLookup_cons_ne _ _ _ _ (by decide),
    jLookup_cons_ne _ _ _ _ (by decide), jLookup_optBool_ne _ _ _ _ (by decide),
    jLookup_optStr_ne _ _ _ _ (by decide), jLookup_optJson_ne _ _ _ _ (by decide)]
  exact jLookup_optStr_self _ _ _ (by
    rw [jLookup_optBool_ne _ _ _ _ (by decide), jLookup_optStr_ne _ _ _ _ (by decide),
      jLookup_optBool_ne _ _ _ _ (by decide), jLookup_nil])

theorem lookup_cancel_async (m : KittyMessage) :
    jLookup m.toJsonFields cancelAsyncKey = m.cancel_async.map Json.bool := by
  rw [KittyMessage.toJsonFields, jLookup_cons_ne _ _ _ _ (by decide),
    jLookup_cons_ne _ _ _ _ (by decide), jLookup_optBool_ne _ _ _ _ (by decide),
    jLookup_optStr_ne _ _ _ _ (by decide), jLookup_optJson_ne _ _ _ _ (by decide),
    jLookup_optStr_ne _ _ _ _ (by decide)]
  exact jLookup_optBool_self _ _ _ (by
    rw [jLookup_optStr_ne _ _ _ _ (by decide), jLookup_optBool_ne _ _ _ _ (by decide),
      jLookup_nil])

theorem lookup_stream_id (m : KittyMessage) :
    jLookup m.toJsonFields streamIdKey = m.stream_id.map Json.str := by
  rw [KittyMessage.toJsonFields, jLookup_cons_ne _ _ _ _ (by decide),
    jLookup_cons_ne _ _ _ _ (by decide), jLookup_optBool_ne _ _ _ _ (by decide),
    jLookup_optStr_ne _ _ _ _ (by decide), jLookup_optJson_ne _ _ _ _ (by decide),
    jLookup_optStr_ne _ _ _ _ (by decide), jLookup_optBool_ne _ _ _ _ (by decide)]
  exact jLookup_optStr_self _ _ _ (by
    rw [jLookup_optBool_ne _ _ _ _ (by decide), jLookup_nil])

theorem lookup_stream (m : KittyMessage) :
    jLookup m.toJsonFields streamKey = m.stream.map Json.bool := by
  rw [KittyMessage.toJsonFields, jLookup_cons_ne _ _ _ _ (by decide),
    jLookup_cons_ne _ _ _ _ (by decide), jLookup_optBool_ne _ _ _ _ (by decide),
    jLookup_optStr_ne _ _ _ _ (by decide), jLookup_optJson_ne _ _ _ _ (by decide),
    jLookup_optStr_ne _ _ _ _ (by decide), jLookup_optBool_ne _ _ _ _ (by decide),
    jLookup_optStr_ne _ _ _ _ (by decide)]
  exact jLookup_optBool_self _ _ _ (jLookup_nil _)

theorem natsToJsonList_wf : ∀ l : List Nat,
    wfJsonList (natsToJsonList l) = true := by
  intro l
  induction l with
  | nil => rfl
  | cons n r ih =>
    show wfJsonList (.cons (.num (n : Int)) (natsToJsonList r)) = true
    rw [show wfJsonList (.cons (.num (n : Int)) (natsToJsonList r)) =
      (wfJson (.num (n : Int)) && wfJsonList (natsToJsonList r)) from rfl, ih]
    rfl

theorem wfJsonFields_optStr (k : List Nat) (o : Option (List Nat))
    (rest : JsonFields) (hk : validUtf8 k = true) :
    wfJsonFields (optStrField k o rest) = (wfOptStr o && wfJsonFields rest) := by
  cases o with
  | none => rfl
  | some s =>
    show wfJsonFields (.cons k (.str s) rest) = (validUtf8 s && wfJsonFields rest)
    rw [show wfJsonFields (.cons k (.str s) rest) =
      (validUtf8 k && (wfJson (.str s) && wfJsonFields rest)) from rfl, hk]
    rfl

theorem wfJsonFields_optBool (k : List Nat) (o : Option Bool)
    (rest : JsonFields) (hk : validUtf8 k = true) :
    wfJsonFields (optBoolField k o rest) = wfJsonFields rest := by
  cases o with
  | none => rfl
  | some b =>
    rw [show wfJsonFields (optBoolField k (some b) rest) =
      (validUtf8 k && (wfJson (.bool b) && wfJsonFields rest)) from rfl, hk]
    rfl

theorem wfJsonFields_optJson (k : List Nat) (o : Option Json)
    (rest : JsonFields) (hk : validUtf8 k = true) :
    wfJsonFields (optJsonField k o rest) = (wfOptJson o && wfJsonFields rest) := by
  cases o with
  | none => rfl
  | some v =>
    rw [show wfJsonFields (optJsonField k (some v) rest) =
      (validUtf8 k && (wfJson v && wfJsonFields rest)) from rfl, hk]
    rfl

theorem wf_toJson (m : KittyMessage) (h : wfMsg m = true) :
    wfJson m.toJson = true := by
  rw [wfMsg] at h
  simp only [Bool.and_eq_true] at h
  obtain ⟨h1, _, h3, h4, h5, h6⟩ := h
  show wfJsonFields m.toJsonFields = true
  rw [KittyMessage.toJsonFields,
    show ∀ (v : Json) (tl : JsonFields), wfJsonFields (.cons cmdKey v tl) =
      (validUtf8 cmdKey && (wfJson v && wfJsonFields tl)) from fun _ _ => rfl,
    show ∀ (v : Json) (tl : JsonFields), wfJsonFields (.cons versionKey v tl) =
      (validUtf8 versionKey && (wfJson v && wfJsonFields tl)) from fun _ _ => rfl,
    wfJsonFields_optBool _ _ _ (by decide),
    wfJsonFields_optStr _ _ _ (by decide),
    wfJsonFields_optJson _ _ _ (by decide),
    wfJsonFields_optStr _ _ _ (by decide),
    wfJsonFields_optBool _ _ _ (by decide),
    wfJsonFields_optStr _ _ _ (by decide),
    wfJsonFields_optBool _ _ _ (by decide)]
  have hver : wfJson (.arr (natsToJsonList m.version)) = true := by
    show wfJsonList (natsToJsonList m.version) = true
    exact natsToJsonList_wf m.version
  have hcmd : wfJson (.str m.cmd) = true := h1
  have hnil : wfJsonFields .nil = true := rfl
  have hck : validUtf8 cmdKey = true := by decide
  have hvk : validUtf8 versionKey = true := by decide
  simp [hcmd, h3, h4, h5, h6, hver, hnil, hck, hvk]

theorem asU32List_natsToJsonList : ∀ l : List Nat,
    (∀ n ∈ l, n < 4294967296) → asU32List (natsToJsonList l) = some l := by
  intro l
  induction l with
  | nil => intro _; rfl
  | cons n r ih =>
    intro h
    show asU32List (.cons (.num (n : Int)) (natsToJsonList r)) = some (n :: r)
    rw [show asU32List (.cons (.num (n : Int)) (natsToJsonList r)) =
      (if 0 ≤ (n : Int) ∧ (n : Int) < 4294967296 then
        (asU32List (natsToJsonList r)).map (fun v => (n : Int).toNat :: v)
      else none) from rfl,
      if_pos (by constructor
                 · exact Int.natCast_nonneg n
                 · exact_mod_cast h n (by simp)),
      ih (fun x hx => h x (by simp [hx]))]
    simp

theorem msgFromJson_toJson (m : KittyMessage) (h : wfMsg m = true)
    (hnp : m.payload ≠ some Json.null) : msgFromJson m.toJson = .ok m := by
  rw [wfMsg] at h
  simp only [Bool.and_eq_true] at h
  obtain ⟨-, h2, -, -, -, -⟩ := h
  have hver : ∀ n ∈ m.version, n < 4294967296 := by
    intro n hn
    have := List.all_eq_true.mp h2 n hn
    simpa using this
  have hnr : optGetBool m.toJsonFields noResponseKey = .ok m.no_response := by
    rw [optGetBool, lookup_no_response]
    cases m.no_response <;> rfl
  have hkwi : optGetStr m.toJsonFields kittyWindowIdKey = .ok m.kitty_window_id := by
    rw [optGetStr, lookup_kitty_window_id]
    cases m.kitty_window_id <;> rfl
  have hpl : optGetPayload m.toJsonFields payloadKey = .ok m.payload := by
    rw [optGetPayload, lookup_payload]
    cases hp : m.payload with
    | none => rfl
    | some p =>
      cases p with
      | null => exact absurd hp hnp
      | bool b => rfl
      | num z => rfl
      | str s => rfl
      | arr l => rfl
      | obj fs => rfl
  have haid : optGetStr m.toJsonFields asyncIdKey = .ok m.async_id := by
    rw [optGetStr, lookup_async_id]
    cases m.async_id <;> rfl
  have hca : optGetBool m.toJsonFields cancelAsyncKey = .ok m.cancel_async := by
    rw [optGetBool, lookup_cancel_async]
    cases m.cancel_async <;> rfl
  have hsid : optGetStr m.toJsonFields streamIdKey = .ok m.stream_id := by
    rw [optGetStr, lookup_stream_id]
    cases m.stream_id <;> rfl
  have hst : optGetBool m.toJsonFields streamKey = .ok m.stream := by
    rw [optGetBool, lookup_stream]
    cases m.stream <;> rfl
  rw [KittyMessage.toJson]
  simp only [msgFromJson, lookup_cmd m, lookup_version m,
    asU32List_natsToJsonList m.version hver, hnr, hkwi, hpl, haid, hca, hsid, hst]

theorem msgFromStr_render (m : KittyMessage) (h : wfMsg m = true)
    (hnp : m.payload ≠ some Json.null) :
    msgFromStr (renderJson m.toJson) = .ok m := by
  rw [msgFromStr, parseJsonText]
  have hpv : parseValue ((renderJson m.toJson).length + 1) (renderJson m.toJson) =
      some (m.toJson, []) := by
    have hg := parseValue_render m.toJson ((renderJson m.toJson).length + 1) []
      (by have := jsize_le_render m.toJson; omega) trivial
    rwa [List.append_nil] at hg
  rw [hpv]
  show msgFromJson m.toJson = Except.ok m
  exact msgFromJson_toJson m h hnp

theorem encode_valid (m : KittyMessage) (h : wfMsg m = true) :
    validUtf8 (KittyMessage.encode m) = true := by
  rw [KittyMessage.encode, List.append_assoc,
    validUtf8_append PREFIXB _ (by decide),
    validUtf8_append _ _ (renderJson_valid _ (wf_toJson m h))]
  decide

theorem encode_slice (m : KittyMessage) :
    strSlice (KittyMessage.encode m) PREFIXB.length
      ((KittyMessage.encode m).length - SUFFIXB.length) =
      some (renderJson m.toJson) := by
  have hbt : renderJson m.toJson = 0x7B :: (renderFields m.toJsonFields ++ [0x7D]) := rfl
  have hlen : (KittyMessage.encode m).length =
      12 + (renderJson m.toJson).length + 2 := by
    rw [KittyMessage.encode]
    simp [PREFIXB, SUFFIXB]
    omega
  have hblen : 1 ≤ (renderJson m.toJson).length := by
    rw [hbt]
    simp
  have hb12 : isCharBoundary (KittyMessage.encode m) 12 = true := by
    rw [isCharBoundary, if_neg (by omega)]
    have hg : (KittyMessage.encode m)[12]? = some 0x7B := by
      rw [KittyMessage.encode, List.append_assoc,
        List.getElem?_append_right (by decide : PREFIXB.length ≤ 12)]
      rw [show (12 - PREFIXB.length) = 0 from by decide, hbt]
      rfl
    rw [hg]
    decide
  have hbEnd : isCharBoundary (KittyMessage.encode m)
      ((KittyMessage.encode m).length - 2) = true := by
    rw [isCharBoundary, if_neg (by omega)]
    have hg0 : ((PREFIXB ++ renderJson m.toJson) ++ SUFFIXB)[((PREFIXB ++
        renderJson m.toJson) ++ SUFFIXB).length - 2]? = some 0x1B := by
      have hL : ((PREFIXB ++ renderJson m.toJson) ++ SUFFIXB).length - 2 =
          (PREFIXB ++ renderJson m.toJson).length := by
        simp [PREFIXB, SUFFIXB]
      rw [hL, List.getElem?_append_right (le_refl _), Nat.sub_self]
      rfl
    have hg : (KittyMessage.encode m)[(KittyMessage.encode m).length - 2]? =
        some 0x1B := by
      rw [KittyMessage.encode]
      exact hg0
    rw [hg]
    decide
  rw [strSlice, if_pos ⟨by
      rw [show PREFIXB.length = 12 from rfl, show SUFFIXB.length = 2 from rfl]
      omega,
    hb12,
    by rw [show SUFFIXB.length = 2 from rfl]; exact hbEnd⟩]
  congr 1
  rw [KittyMessage.encode, List.append_assoc, List.drop_left]
  have hn : (PREFIXB ++ (renderJson m.toJson ++ SUFFIXB)).length -
      SUFFIXB.length - PREFIXB.length = (renderJson m.toJson).length := by
    simp [PREFIXB, SUFFIXB]
  rw [hn]
  exact List.take_left _ _

/-- Claim C1 core: with the constructibility invariants of a Rust value
and a payload that is not the JSON null value, decoding the encoding
reproduces the message. -/
theorem decode_encode (m : KittyMessage) (h : wfMsg m = true)
    (hnp : m.payload ≠ some Json.null) :
    KittyMessage.decode (KittyMessage.encode m) = some (.ok m) := by
  have hpre : PREFIXB.isPrefixOf (KittyMessage.encode m) = true := by
    rw [KittyMessage.encode, List.append_assoc]
    exact isPrefixOf_append_self _ _
  have hsuf : SUFFIXB.isSuffixOf (KittyMessage.encode m) = true := by
    rw [KittyMessage.encode]
    exact isSuffixOf_append_self _ _
  rw [KittyMessage.decode, encode_valid m h, hpre, hsuf]
  simp only [Bool.true_eq_false, if_false, ite_false]
  rw [encode_slice m]
  show some (msgFromStr (renderJson m.toJson)) = some (Except.ok m)
  rw [msgFromStr_render m h hnp]

theorem takeChunk_eq : ∀ (l : List Nat) (n : Nat),
    takeChunk n l = (l.take n, l.drop n) := by
  intro l
  induction l with
  | nil => intro n; cases n <;> rfl
  | cons x xs ih =>
    intro n
    cases n with
    | zero => rfl
    | succ k =>
      show (x :: (takeChunk k xs).1, (takeChunk k xs).2) = _
      rw [ih k]
      rfl

theorem chunksOfAux_length : ∀ (fuel : Nat) (s : List Nat), s.length ≤ fuel →
    (chunksOfAux fuel s).length = (s.length + 4095) / 4096 := by
  intro fuel
  induction fuel with
  | zero =>
    intro s hs
    have : s = [] := List.length_eq_zero.mp (by omega)
    subst this
    rfl
  | succ f ih =>
    intro s hs
    match s with
    | [] => rfl
    | x :: xs =>
      show ((takeChunk MAX_CHUNK_SIZE (x :: xs)).1 ::
        chunksOfAux f (takeChunk MAX_CHUNK_SIZE (x :: xs)).2).length = _
      rw [takeChunk_eq]
      simp only [List.length_cons]
      rw [ih ((x :: xs).drop MAX_CHUNK_SIZE) (by
        rw [List.length_drop]
        simp only [List.length_cons, MAX_CHUNK_SIZE] at hs ⊢
        omega)]
      rw [List.length_drop]
      have hlen : (x :: xs).length = xs.length + 1 := rfl
      rw [hlen]
      show (xs.length + 1 - 4096 + 4095) / 4096 + 1 = (xs.length + 1 + 4095) / 4096
      omega

theorem chunksOf4096_length (s : List Nat) :
    (chunksOf4096 s).length = (s.length + 4095) / 4096 :=
  chunksOfAux_length s.length s (le_refl _)

theorem chunkMsgs_length (base : KittyMessage) (sid : List Nat) :
    ∀ (ds : List (List Nat)) (i : Nat),
    (chunkMsgs base sid i ds).length = ds.length := by
  intro ds
  induction ds with
  | nil => intro i; rfl
  | cons d ds ih =>
    intro i
    show (mkChunk base sid i d :: chunkMsgs base sid (i + 1) ds).length = _
    simp [ih (i + 1)]

theorem chunkMsgs_getElem (base : KittyMessage) (sid : List Nat) :
    ∀ (ds : List (List Nat)) (j i : Nat),
    (chunkMsgs base sid j ds)[i]? = (ds[i]?).map (fun d => mkChunk base sid (j + i) d) := by
  intro ds
  induction ds with
  | nil => intro j i; simp [chunkMsgs]
  | cons d ds ih =>
    intro j i
    cases i with
    | zero =>
      rw [show chunkMsgs base sid j (d :: ds) =
        mkChunk base sid j d :: chunkMsgs base sid (j + 1) ds from rfl,
        List.getElem?_cons_zero, List.getElem?_cons_zero]
      simp
    | succ k =>
      show (mkChunk base sid j d :: chunkMsgs base sid (j + 1) ds)[k + 1]? = _
      rw [List.getElem?_cons_succ, ih (j + 1) k, List.getElem?_cons_succ]
      congr 1
      funext d2
      congr 1
      omega

theorem chunkMsgs_mem (base : KittyMessage) (sid : List Nat) :
    ∀ (ds : List (List Nat)) (i : Nat) (c : KittyMessage),
    c ∈ chunkMsgs base sid i ds →
    c.stream_id = some sid ∧ c.stream = some true := by
  intro ds
  induction ds with
  | nil => intro i c hc; simp [chunkMsgs] at hc
  | cons d ds ih =>
    intro i c hc
    rw [show chunkMsgs base sid i (d :: ds) =
      mkChunk base sid i d :: chunkMsgs base sid (i + 1) ds from rfl] at hc
    rcases List.mem_cons.mp hc with hc | hc
    · subst hc
      exact ⟨rfl, rfl⟩
    · exact ih (i + 1) c hc

theorem needs_streaming_single (m : KittyMessage) (k s : List Nat)
    (hp : m.payload = some (.obj (.cons k (.str s) .nil))) :
    m.needs_streaming = decide (MAX_CHUNK_SIZE < s.length) := by
  rw [KittyMessage.needs_streaming, hp]
  show fieldsHasOversized (.cons k (.str s) .nil) = _
  rw [show fieldsHasOversized (.cons k (.str s) .nil) =
    (strFieldOversized (.str s) || fieldsHasOversized .nil) from rfl]
  rw [show strFieldOversized (.str s) = decide (MAX_CHUNK_SIZE < s.length) from rfl]
  simp [fieldsHasOversized]

theorem into_chunks_split (m : KittyMessage) (k s : List Nat) (tl : JsonFields)
    (n : Nat) (hp : m.payload = some (.obj (.cons k (.str s) tl)))
    (hlen : MAX_CHUNK_SIZE < s.length) :
    m.into_chunks n =
      chunkMsgs { m with payload := none } (generate_unique_id n) 0 (chunksOf4096 s) ++
        [endChunk { m with payload := none } (generate_unique_id n)] := by
  have hns : m.needs_streaming = true := by
    rw [KittyMessage.needs_streaming, hp]
    show fieldsHasOversized (.cons k (.str s) tl) = true
    rw [show fieldsHasOversized (.cons k (.str s) tl) =
      (strFieldOversized (.str s) || fieldsHasOversized tl) from rfl,
      show strFieldOversized (.str s) = decide (MAX_CHUNK_SIZE < s.length) from rfl]
    simp [hlen]
  rw [KittyMessage.into_chunks, hns]
  simp only [Bool.true_eq_false, if_false, ite_false]
  rw [hp]
  show (match splitFirstOversized { m with payload := none }
      (generate_unique_id n) (.cons k (.str s) tl) with
    | some cs => cs
    | none => [{ m with payload := none }]) = _
  rw [show splitFirstOversized { m with payload := none }
      (generate_unique_id n) (.cons k (.str s) tl) =
    (if MAX_CHUNK_SIZE < s.length then
      some (chunkMsgs { m with payload := none } (generate_unique_id n) 0
        (chunksOf4096 s) ++ [endChunk { m with payload := none }
          (generate_unique_id n)])
    else splitFirstOversized { m with payload := none }
      (generate_unique_id n) tl) from rfl, if_pos hlen]

theorem chunkMsgs_payload_shape (base : KittyMessage) (sid : List Nat) :
    ∀ (ds : List (List Nat)) (i : Nat) (c : KittyMessage),
    c ∈ chunkMsgs base sid i ds →
    ∃ j d, c.payload = some (.obj (.cons chunkNumKey (.num j)
      (.cons dataKey (.str d) .nil))) := by
  intro ds
  induction ds with
  | nil => intro i c hc; simp [chunkMsgs] at hc
  | cons d ds ih =>
    intro i c hc
    rw [show chunkMsgs base sid i (d :: ds) =
      mkChunk base sid i d :: chunkMsgs base sid (i + 1) ds from rfl] at hc
    rcases List.mem_cons.mp hc with hc | hc
    · exact hc ▸ ⟨(i : Int), utf8Lossy d, rfl⟩
    · exact ih (i + 1) c hc

theorem frame_slice_total (data : List Nat) (hutf : validUtf8 data = true)
    (hpre : PREFIXB.isPrefixOf data = true)
    (hsuf : SUFFIXB.isSuffixOf data = true) :
    ∃ body, strSlice data PREFIXB.length (data.length - SUFFIXB.length) =
      some body := by
  obtain ⟨t, ht⟩ : ∃ t, PREFIXB ++ t = data :=
    List.isPrefixOf_iff_prefix.mp hpre
  obtain ⟨u, hu⟩ : ∃ u, u ++ SUFFIXB = data :=
    List.isSuffixOf_iff_suffix.mp hsuf
  have hlen : data.length = 12 + t.length := by
    rw [← ht]
    simp [PREFIXB]
    omega
  have hulen : data.length = u.length + 2 := by
    rw [← hu]
    simp [SUFFIXB]
  have ht2 : 2 ≤ t.length := by
    by_contra hcon
    have hd11 : data[11]? = some 0x64 := by
      rw [← ht, List.getElem?_append_left (by simp [PREFIXB])]
      rfl
    have hd11' : data[11]? = SUFFIXB[11 - u.length]? := by
      rw [← hu, List.getElem?_append_right (by omega)]
    rw [hd11] at hd11'
    have : u.length = 10 ∨ u.length = 11 := by omega
    rcases this with h10 | h11
    · rw [h10] at hd11'
      simp [SUFFIXB] at hd11'
    · rw [h11] at hd11'
      simp [SUFFIXB] at hd11'
  have htvalid : validUtf8 t = true := by
    have := validUtf8_append PREFIXB t (by decide)
    rw [ht, hutf] at this
    exact this.symm
  obtain ⟨c, t2, hct⟩ : ∃ c t2, t = c :: t2 := by
    match t, ht2 with
    | c :: t2, _ => exact ⟨c, t2, rfl⟩
  have hhead : c ≤ 0x7F ∨ 0xC2 ≤ c :=
    validUtf8_head_not_cont c t2 (hct ▸ htvalid)
  have hb12 : isCharBoundary data PREFIXB.length = true := by
    rw [isCharBoundary, if_neg (by
      rw [show PREFIXB.length = 12 from rfl]
      omega)]
    have hg : data[PREFIXB.length]? = some c := by
      rw [← ht, List.getElem?_append_right (le_refl _), Nat.sub_self, hct]
      simp
    rw [hg]
    simp only [decide_eq_true_eq]
    omega
  have hbEnd : isCharBoundary data (data.length - SUFFIXB.length) = true := by
    rw [isCharBoundary, if_neg (by
      rw [show SUFFIXB.length = 2 from rfl]
      omega)]
    have hg : data[data.length - SUFFIXB.length]? = some 0x1B := by
      rw [show data.length - SUFFIXB.length = u.length from by
        rw [show SUFFIXB.length = 2 from rfl]; omega,
        ← hu, List.getElem?_append_right (le_refl _), Nat.sub_self]
      rfl
    rw [hg]
    decide
  have hab : PREFIXB.length ≤ data.length - SUFFIXB.length := by
    rw [show PREFIXB.length = 12 from rfl, show SUFFIXB.length = 2 from rfl]
    omega
  refine ⟨(data.drop PREFIXB.length).take
    (data.length - SUFFIXB.length - PREFIXB.length), ?_⟩
  rw [strSlice, if_pos ⟨hab, hb12, hbEnd⟩]

theorem KittyMessage_decode_isSome (data : List Nat) :
    (KittyMessage.decode data).isSome = true := by
  rw [KittyMessage.decode]
  by_cases h1 : validUtf8 data = false
  · rw [if_pos h1]
    rfl
  · rw [if_neg h1]
    by_cases h2 : PREFIXB.isPrefixOf data = false
    · rw [if_pos h2]
      rfl
    · rw [if_neg h2]
      by_cases h3 : SUFFIXB.isSuffixOf data = false
      · rw [if_pos h3]
        rfl
      · rw [if_neg h3]
        obtain ⟨body, hb⟩ := frame_slice_total data
          (by revert h1; cases validUtf8 data <;> simp)
          (by revert h2; cases PREFIXB.isPrefixOf data <;> simp)
          (by revert h3; cases SUFFIXB.isSuffixOf data <;> simp)
        rw [hb]
        rfl

theorem KittyResponse_decode_isSome (data : List Nat) :
    (KittyResponse.decode data).isSome = true := by
  rw [KittyResponse.decode]
  by_cases h1 : validUtf8 data = false
  · rw [if_pos h1]
    rfl
  · rw [if_neg h1]
    by_cases h2 : PREFIXB.isPrefixOf data = false
    · rw [if_pos h2]
      rfl
    · rw [if_neg h2]
      by_cases h3 : SUFFIXB.isSuffixOf data = false
      · rw [if_pos h3]
        rfl
      · rw [if_neg h3]
        obtain ⟨body, hb⟩ := frame_slice_total data
          (by revert h1; cases validUtf8 data <;> simp)
          (by revert h2; cases PREFIXB.isPrefixOf data <;> simp)
          (by revert h3; cases SUFFIXB.isSuffixOf data <;> simp)
        rw [hb]
        cases hp : parseJsonText body with
        | none => simp [hp]
        | some v => cases v <;> simp [hp]

theorem splitFirstOversized_cons_skip (base : KittyMessage) (sid : List Nat)
    (k : List Nat) (v : Json) (tl : JsonFields)
    (hsf : strFieldOversized v = false) :
    splitFirstOversized base sid (.cons k v tl) =
      splitFirstOversized base sid tl := by
  cases v with
  | str s =>
    have hlen : ¬ MAX_CHUNK_SIZE < s.length := by
      simpa [strFieldOversized] using hsf
    show (if MAX_CHUNK_SIZE < s.length then
        some (chunkMsgs base sid 0 (chunksOf4096 s) ++ [endChunk base sid])
      else splitFirstOversized base sid tl) = _
    rw [if_neg hlen]
  | null => rfl
  | bool b => rfl
  | num n => rfl
  | arr l => rfl
  | obj gs => rfl

theorem splitFirstOversized_some (base : KittyMessage) (sid : List Nat) :
    ∀ fs : JsonFields, fieldsHasOversized fs = true →
    ∃ cs, splitFirstOversized base sid fs = some cs ∧
      ∀ c ∈ cs,
        (∃ j d, c.payload = some (.obj (.cons chunkNumKey (.num j)
          (.cons dataKey (.str d) .nil)))) ∨
        c.payload = some (.obj (.cons dataKey (.str []) .nil))
  | .nil, h => by simp [fieldsHasOversized] at h
  | .cons k v tl, h => by
    rw [show fieldsHasOversized (.cons k v tl) =
      (strFieldOversized v || fieldsHasOversized tl) from rfl] at h
    by_cases hsf : strFieldOversized v = true
    · match v, hsf with
      | .str s, hsf =>
        have hlen : MAX_CHUNK_SIZE < s.length := by
          simpa [strFieldOversized] using hsf
        refine ⟨chunkMsgs base sid 0 (chunksOf4096 s) ++ [endChunk base sid],
          ?_, ?_⟩
        · show (if MAX_CHUNK_SIZE < s.length then
            some (chunkMsgs base sid 0 (chunksOf4096 s) ++ [endChunk base sid])
          else splitFirstOversized base sid tl) = _
          rw [if_pos hlen]
        · intro c hc
          rcases List.mem_append.mp hc with hc | hc
          · exact Or.inl (chunkMsgs_payload_shape base sid _ 0 c hc)
          · rw [List.mem_singleton] at hc
            exact Or.inr (hc ▸ rfl)
    · have hsf' : strFieldOversized v = false := by
        revert hsf; cases strFieldOversized v <;> simp
      have htl : fieldsHasOversized tl = true := by
        rw [hsf'] at h
        simpa using h
      obtain ⟨cs, hcs, hall⟩ := splitFirstOversized_some base sid tl htl
      exact ⟨cs, by rw [splitFirstOversized_cons_skip base sid k v tl hsf', hcs],
        hall⟩

theorem jLookup_insert_self : ∀ (fs : JsonFields) (k : List Nat) (v : Json),
    jLookup (jsonInsert fs k v) k = some v
  | .nil, k, v => by simp [jsonInsert, jLookup]
  | .cons k0 v0 tl, k, v => by
    by_cases h : k0 = k
    · simp [jsonInsert, h, jLookup]
    · simp [jsonInsert, h, jLookup, jLookup_insert_self tl k v]

theorem jLookup_insert_ne : ∀ (fs : JsonFields) (k k2 : List Nat) (v : Json),
    k ≠ k2 → jLookup (jsonInsert fs k v) k2 = jLookup fs k2
  | .nil, k, k2, v, hne => by simp [jsonInsert, jLookup, hne]
  | .cons k0 v0 tl, k, k2, v, hne => by
    by_cases h : k0 = k
    · subst h
      simp [jsonInsert, jLookup, hne]
    · simp [jsonInsert, h, jLookup, jLookup_insert_ne tl k k2 v hne]

theorem chunkMsgs_no_b (base : KittyMessage) (sid : List Nat) :
    ∀ (ds : List (List Nat)) (i : Nat),
    (chunkMsgs base sid i ds).map (fun c =>
      match c.payload with
      | some (.obj fs) => jLookup fs [0x62]
      | _ => none) = List.replicate ds.length (none : Option Json) := by
  intro ds
  induction ds with
  | nil => intro i; rfl
  | cons d ds ih =>
    intro i
    rw [show chunkMsgs base sid i (d :: ds) =
      mkChunk base sid i d :: chunkMsgs base sid (i + 1) ds from rfl,
      List.map_cons, ih (i + 1)]
    simp only [List.length_cons, List.replicate_succ]
    congr 1

theorem utf8Lossy_a_cons (r : List Nat) :
    utf8Lossy (0x61 :: r) = 0x61 :: utf8Lossy r := by
  rw [utf8Lossy.eq_def]
  simp

theorem utf8Lossy_replicate_a : ∀ (n : Nat) (r : List Nat),
    utf8Lossy (List.replicate n 0x61 ++ r) = List.replicate n 0x61 ++ utf8Lossy r := by
  intro n
  induction n with
  | zero => intro r; simp
  | succ k ih =>
    intro r
    rw [List.replicate_succ, List.cons_append, utf8Lossy_a_cons, ih,
      List.cons_append]

theorem chunksOfAux_small (fuel : Nat) (t : List Nat) (hf : 0 < fuel)
    (ht : t ≠ []) (hlen : t.length ≤ MAX_CHUNK_SIZE) :
    chunksOfAux fuel t = [t] := by
  cases fuel with
  | zero => omega
  | succ f =>
    cases t with
    | nil => exact absurd rfl ht
    | cons x xs =>
      show (takeChunk MAX_CHUNK_SIZE (x :: xs)).1 ::
        chunksOfAux f (takeChunk MAX_CHUNK_SIZE (x :: xs)).2 = [x :: xs]
      rw [takeChunk_eq]
      rw [List.take_of_length_le hlen, List.drop_eq_nil_of_le hlen]
      rw [show chunksOfAux f ([] : List Nat) = [] from by cases f <;> rfl]

theorem into_chunks_no_stream (m : KittyMessage) (n : Nat)
    (hns : m.needs_streaming = false) : m.into_chunks n = [m] := by
  rw [KittyMessage.into_chunks, if_pos hns]

theorem chunksOf4096_two (s : List Nat) (h1 : MAX_CHUNK_SIZE < s.length)
    (h2 : s.length ≤ 2 * MAX_CHUNK_SIZE) :
    chunksOf4096 s = [s.take MAX_CHUNK_SIZE, s.drop MAX_CHUNK_SIZE] := by
  cases s with
  | nil => simp at h1
  | cons x xs =>
    show chunksOfAux (x :: xs).length (x :: xs) = _
    rw [show (x :: xs).length = xs.length + 1 from rfl]
    show (takeChunk MAX_CHUNK_SIZE (x :: xs)).1 ::
      chunksOfAux xs.length (takeChunk MAX_CHUNK_SIZE (x :: xs)).2 = _
    rw [takeChunk_eq]
    have hlx : (x :: xs).length = xs.length + 1 := rfl
    have hfu : 0 < xs.length := by
      rw [hlx] at h1
      simp only [MAX_CHUNK_SIZE] at h1
      omega
    have hdl : ((x :: xs).drop MAX_CHUNK_SIZE).length =
        (x :: xs).length - MAX_CHUNK_SIZE := List.length_drop _ _
    have hne : (x :: xs).drop MAX_CHUNK_SIZE ≠ [] := by
      apply List.ne_nil_of_length_pos
      rw [hdl]
      omega
    have hsm : ((x :: xs).drop MAX_CHUNK_SIZE).length ≤ MAX_CHUNK_SIZE := by
      rw [hdl]
      omega
    rw [chunksOfAux_small xs.length _ hfu hne hsm]

theorem receive_closed_empty (rs : List (List Nat)) :
    Kitty.receive ([] :: rs) = some (.error (.Connection .ConnectionClosed)) := rfl

theorem receive_partial_close (reads : List (List Nat)) (buf : List Nat)
    (hbuf : receiveBuffer reads [] = some buf) (hne : buf ≠ [])
    (hsuf : SUFFIXB.isSuffixOf buf = false) :
    ∃ e : ProtocolError, Kitty.receive reads = some (.error (.Protocol e)) := by
  have hd : ∃ e : ProtocolError,
      KittyResponse.decode buf = some (.error e) := by
    by_cases h1 : validUtf8 buf = false
    · refine ⟨.EnvelopeParseError .invalidUtf8, ?_⟩
      rw [KittyResponse.decode, if_pos h1]
    · by_cases h2 : PREFIXB.isPrefixOf buf = false
      · refine ⟨.EnvelopeParseError .badPrefix, ?_⟩
        rw [KittyResponse.decode, if_neg h1, if_pos h2]
      · refine ⟨.EnvelopeParseError .badSuffix, ?_⟩
        rw [KittyResponse.decode, if_neg h1, if_neg h2, if_pos hsuf]
  obtain ⟨e, he⟩ := hd
  refine ⟨e, ?_⟩
  rw [Kitty.receive, hbuf]
  show (if buf.length = 0 then
      some (Except.error (KittyError.Connection ConnectionError.ConnectionClosed))
    else
      match KittyResponse.decode buf with
      | none => none
      | some (Except.ok resp) => some (Except.ok resp)
      | some (Except.error e2) =>
          some (Except.error (KittyError.Protocol e2))) =
    some (Except.error (KittyError.Protocol e))
  rw [if_neg (by simpa using hne), he]

/-- C1 (corrected): the decode of an encoded well-formed envelope
reproduces every field, provided the payload is not Some(Value::Null) -
serde maps a JSON null back to an absent Option payload, so the round
trip strips such a payload (see c1_counterexample). -/
theorem c1_roundtrip (m : KittyMessage) (h : wfMsg m = true)
    (hnp : m.payload ≠ some Json.null) :
    KittyMessage.decode (KittyMessage.encode m) = some (.ok m) :=
  decode_encode m h hnp

/-- Witness for C1: the round trip at the concrete ls envelope. -/
theorem c1_roundtrip_witness :
    wfMsg lsMsg = true ∧
    KittyMessage.decode (KittyMessage.encode lsMsg) = some (.ok lsMsg) :=
  ⟨by decide, c1_roundtrip lsMsg (by decide) (by simp [lsMsg, KittyMessage.new])⟩

/-- C1 counterexample: the envelope with payload Some(Value::Null) decodes
back with payload None, so decode∘encode is not the identity on it. -/
theorem c1_counterexample :
    nullPayloadMsg.payload = some Json.null ∧
    KittyMessage.decode (KittyMessage.encode nullPayloadMsg) =
      some (.ok { nullPayloadMsg with payload := none }) ∧
    { nullPayloadMsg with payload := none } ≠ nullPayloadMsg := by
  refine ⟨rfl, rfl, fun hc => ?_⟩
  have h2 := congrArg KittyMessage.payload hc
  simp [nullPayloadMsg] at h2

/-- C2 (confirmed): encoding the ls envelope with version [0,43,1] and
every optional field absent produces exactly the expected wire bytes -
prefix, the field-ordered whitespace-free JSON body with the absent
options omitted entirely, and the two suffix bytes. -/
theorem c2_ls_wire_bytes : KittyMessage.encode lsMsg = lsWire := by decide

/-- C3 (confirmed): for a payload holding a single string field, a string
of exactly 4096 bytes does not trigger streaming and into_chunks returns
the envelope unchanged; a longer string yields ceil(len/4096) content
chunks plus one empty-data terminator, all sharing the one stream id and
stream flag, with chunk_num equal to the chunk index from 0. -/
theorem c3_chunk_threshold (m : KittyMessage) (k s : List Nat) (n : Nat)
    (hp : m.payload = some (.obj (.cons k (.str s) .nil))) :
    (s.length = MAX_CHUNK_SIZE →
      m.needs_streaming = false ∧ m.into_chunks n = [m]) ∧
    (MAX_CHUNK_SIZE < s.length →
      (m.into_chunks n).length = (s.length + 4095) / 4096 + 1 ∧
      (∀ c ∈ m.into_chunks n, c.stream_id = some (generate_unique_id n) ∧
        c.stream = some true) ∧
      (m.into_chunks n).getLast? =
        some (endChunk { m with payload := none } (generate_unique_id n)) ∧
      (endChunk { m with payload := none } (generate_unique_id n)).payload =
        some (.obj (.cons dataKey (.str []) .nil)) ∧
      (∀ i d, (chunksOf4096 s)[i]? = some d →
        (m.into_chunks n)[i]? = some (mkChunk { m with payload := none }
          (generate_unique_id n) i d) ∧
        (mkChunk { m with payload := none } (generate_unique_id n) i d).payload =
          some (.obj (.cons chunkNumKey (.num (i : Int))
            (.cons dataKey (.str (utf8Lossy d)) .nil))))) := by
  constructor
  · intro hlen
    have hns : m.needs_streaming = false := by
      rw [needs_streaming_single m k s hp, hlen]
      simp
    exact ⟨hns, into_chunks_no_stream m n hns⟩
  · intro hlen
    have heq := into_chunks_split m k s .nil n hp hlen
    refine ⟨?_, ?_, ?_, rfl, ?_⟩
    · rw [heq, List.length_append, chunkMsgs_length, chunksOf4096_length]
      simp
    · intro c hc
      rw [heq] at hc
      rcases List.mem_append.mp hc with hc | hc
      · exact chunkMsgs_mem _ _ _ 0 c hc
      · rw [List.mem_singleton] at hc
        subst hc
        exact ⟨rfl, rfl⟩
    · rw [heq, List.getLast?_concat]
    · intro i d hd
      have hi : i < (chunksOf4096 s).length := by
        by_contra hcon
        rw [List.getElem?_eq_none (by omega)] at hd
        cases hd
      constructor
      · rw [heq, List.getElem?_append_left (by rw [chunkMsgs_length]; exact hi),
          chunkMsgs_getElem, hd]
        simp
      · rfl

/-- Witness for C3: the single 4097-byte field gives two content chunks
and the terminator. -/
theorem c3_witness :
    (bigStrMsg.into_chunks 0).length = 3 ∧
    (bigStrMsg.into_chunks 0).getLast? =
      some (endChunk { bigStrMsg with payload := none } (generate_unique_id 0)) := by
  have h := (c3_chunk_threshold bigStrMsg dataKey (List.replicate 4097 0x61) 0
    rfl).2 (by simp only [List.length_replicate, MAX_CHUNK_SIZE]; omega)
  refine ⟨?_, h.2.2.1⟩
  rw [h.1, List.length_replicate]

/-- C4 (corrected): when the payload object has an oversized string field,
only the first oversized field is split; contrary to the claim, the other
payload fields do NOT pass through - every emitted message carries a
fresh payload holding only chunk_num and data (the terminator only an
empty data), and the rest of the original payload is dropped (see
c4_counterexample). -/
theorem c4_first_field_split (m : KittyMessage) (fs : JsonFields) (n : Nat)
    (hp : m.payload = some (.obj fs)) (hns : m.needs_streaming = true) :
    (∀ c ∈ m.into_chunks n,
      (∃ j d, c.payload = some (.obj (.cons chunkNumKey (.num j)
        (.cons dataKey (.str d) .nil)))) ∨
      c.payload = some (.obj (.cons dataKey (.str []) .nil))) ∧
    (∀ k s tl, fs = .cons k (.str s) tl → MAX_CHUNK_SIZE < s.length →
      m.into_chunks n = chunkMsgs { m with payload := none }
        (generate_unique_id n) 0 (chunksOf4096 s) ++
        [endChunk { m with payload := none } (generate_unique_id n)]) := by
  have hov : fieldsHasOversized fs = true := by
    rw [KittyMessage.needs_streaming, hp] at hns
    exact hns
  obtain ⟨cs, hcs, hall⟩ := splitFirstOversized_some { m with payload := none }
    (generate_unique_id n) fs hov
  have hic : m.into_chunks n = cs := by
    rw [KittyMessage.into_chunks, hns]
    simp only [Bool.true_eq_false, if_false, ite_false]
    rw [hp]
    show (match splitFirstOversized { m with payload := none }
        (generate_unique_id n) fs with
      | some cs2 => cs2
      | none => [{ m with payload := none }]) = cs
    rw [hcs]
  constructor
  · intro c hc
    rw [hic] at hc
    exact hall c hc
  · intro k s tl hfs hlen
    subst hfs
    exact into_chunks_split m k s tl n hp hlen

/-- Witness for C4: the two-field envelope splits on its first field. -/
theorem c4_witness :
    twoFieldMsg.into_chunks 0 =
      chunkMsgs { twoFieldMsg with payload := none } (generate_unique_id 0) 0
        (chunksOf4096 sA4097) ++
      [endChunk { twoFieldMsg with payload := none } (generate_unique_id 0)] := by
  have hns : twoFieldMsg.needs_streaming = true := by
    rw [KittyMessage.needs_streaming]
    show fieldsHasOversized (.cons [0x61] (.str sA4097)
      (.cons [0x62] (.str sB4097) .nil)) = true
    rw [show fieldsHasOversized (.cons [0x61] (.str sA4097)
        (.cons [0x62] (.str sB4097) .nil)) =
      (strFieldOversized (.str sA4097) || fieldsHasOversized
        (.cons [0x62] (.str sB4097) .nil)) from rfl,
      show strFieldOversized (.str sA4097) =
        decide (MAX_CHUNK_SIZE < sA4097.length) from rfl]
    simp only [sA4097, List.length_replicate, MAX_CHUNK_SIZE]
    rw [show (decide (4096 < 4097) : Bool) = true from rfl, Bool.true_or]
  exact (c4_first_field_split twoFieldMsg _ 0 rfl hns).2 [0x61] sA4097 _ rfl
    (by simp only [sA4097, List.length_replicate, MAX_CHUNK_SIZE]; omega)

/-- C4 counterexample: the second oversized field "b" is present in the
original payload but looked up in every emitted message's payload it is
gone - nothing passes through. -/
theorem c4_counterexample :
    jLookup (.cons [0x61] (.str sA4097) (.cons [0x62] (.str sB4097) .nil))
      [0x62] = some (.str sB4097) ∧
    (twoFieldMsg.into_chunks 0).map (fun c =>
      match c.payload with
      | some (.obj fs) => jLookup fs [0x62]
      | _ => none) = [none, none, none] := by
  constructor
  · show (if [0x61] = [0x62] then some (Json.str sA4097)
      else jLookup (.cons [0x62] (.str sB4097) .nil) [0x62]) = _
    rw [if_neg (by decide)]
    show (if [0x62] = [0x62] then some (Json.str sB4097) else jLookup .nil [0x62]) = _
    rw [if_pos rfl]
  · have heq := into_chunks_split twoFieldMsg [0x61] sA4097
      (.cons [0x62] (.str sB4097) .nil) 0 rfl
      (by simp only [sA4097, List.length_replicate, MAX_CHUNK_SIZE]; omega)
    rw [heq, List.map_append, chunkMsgs_no_b]
    have h2 : (chunksOf4096 sA4097).length = 2 := by
      rw [chunksOf4096_length]
      simp only [sA4097, List.length_replicate]
    rw [h2]
    rfl

/-- C5 (confirmed): decoding is total on every byte string - no panic -
and each framing failure yields the matching error value: invalid UTF-8,
missing exact prefix, or missing exact suffix (the interior slice is
always in bounds and on character boundaries when the checks pass). -/
theorem c5_decode_total (data : List Nat) :
    (KittyMessage.decode data).isSome = true ∧
    (KittyResponse.decode data).isSome = true ∧
    (validUtf8 data = false →
      KittyMessage.decode data = some (.error .InvalidMessageFormat) ∧
      KittyResponse.decode data =
        some (.error (.EnvelopeParseError .invalidUtf8))) ∧
    (validUtf8 data = true → PREFIXB.isPrefixOf data = false →
      KittyMessage.decode data = some (.error .InvalidEscapeSequence) ∧
      KittyResponse.decode data =
        some (.error (.EnvelopeParseError .badPrefix))) ∧
    (validUtf8 data = true → PREFIXB.isPrefixOf data = true →
      SUFFIXB.isSuffixOf data = false →
      KittyMessage.decode data = some (.error .InvalidEscapeSequence) ∧
      KittyResponse.decode data =
        some (.error (.EnvelopeParseError .badSuffix))) := by
  refine ⟨KittyMessage_decode_isSome data, KittyResponse_decode_isSome data,
    ?_, ?_, ?_⟩
  · intro h
    exact ⟨by rw [KittyMessage.decode, if_pos h],
      by rw [KittyResponse.decode, if_pos h]⟩
  · intro h1 h2
    have h1' : ¬ validUtf8 data = false := by simp [h1]
    exact ⟨by rw [KittyMessage.decode, if_neg h1', if_pos h2],
      by rw [KittyResponse.decode, if_neg h1', if_pos h2]⟩
  · intro h1 h2 h3
    have h1' : ¬ validUtf8 data = false := by simp [h1]
    have h2' : ¬ PREFIXB.isPrefixOf data = false := by simp [h2]
    exact ⟨by rw [KittyMessage.decode, if_neg h1', if_neg h2', if_pos h3],
      by rw [KittyResponse.decode, if_neg h1', if_neg h2', if_pos h3]⟩

/-- Witness for C5 at two concrete failing inputs. -/
theorem c5_witness :
    KittyMessage.decode [0xFF] = some (.error .InvalidMessageFormat) ∧
    KittyResponse.decode [0x61] =
      some (.error (.EnvelopeParseError .badPrefix)) :=
  ⟨((c5_decode_total [0xFF]).2.2.1 (by decide)).1,
   ((c5_decode_total [0x61]).2.2.2.1 (by decide) (by decide)).2⟩

/-- C6 (confirmed): with a password configured the peer key resolution is
first-match-wins - an explicit key is parsed and used over everything,
otherwise a pid-store hit, otherwise the ambient environment/file sources
inside new_with_public_key - and with no source at all connection setup
fails with MissingPublicKey. -/
theorem c6_key_precedence (pw k : List Nat) (spid : Option Nat)
    (db : Nat → Option (List Nat)) (env : KeyEnv) :
    (resolveEncryptor (some pw) (some k) spid db env =
      (Encryptor.new_with_public_key env (some k)).map some) ∧
    (∀ pid, spid = some pid → db pid = some k →
      resolveEncryptor (some pw) none spid db env =
        (Encryptor.new_with_public_key env (some k)).map some) ∧
    ((spid = none ∨ ∀ pid, spid = some pid → db pid = none) →
      resolveEncryptor (some pw) none spid db env =
        (Encryptor.new_with_public_key env none).map some) ∧
    (env.envKey = none → env.fileKey = none →
      resolveEncryptor (some pw) none none db env =
        .error .MissingPublicKey) := by
  refine ⟨rfl, ?_, ?_, ?_⟩
  · intro pid hs hdb
    subst hs
    show (Encryptor.new_with_public_key env (db pid)).map some = _
    rw [hdb]
  · intro h
    rcases h with h | h
    · subst h
      rfl
    · cases hs : spid with
      | none => rfl
      | some pid =>
        show (Encryptor.new_with_public_key env (db pid)).map some = _
        rw [h pid hs]
  · intro h1 h2
    match env, h1, h2 with
    | ⟨none, none⟩, _, _ => rfl
    | ⟨some _, _⟩, h1, _ => exact nomatch h1
    | ⟨none, some _⟩, _, h2 => exact nomatch h2

/-- Witness for C6: the three tiers at concrete inputs - explicit key,
pid-store key, and the fatal no-source case. -/
theorem c6_witness :
    resolveEncryptor (some [0x70]) (some demoKeyStr) (some 5) demoDb
      ⟨none, none⟩ = .ok (some (Encryptor.mk (List.replicate 32 0))) ∧
    resolveEncryptor (some [0x70]) none (some 5) demoDb ⟨none, none⟩ =
      .ok (some (Encryptor.mk (List.replicate 32 0))) ∧
    resolveEncryptor (some [0x70]) none none demoDb ⟨none, none⟩ =
      .error .MissingPublicKey := by
  refine ⟨?_, ?_,
    (c6_key_precedence [0x70] demoKeyStr none demoDb ⟨none, none⟩).2.2.2 rfl rfl⟩
  · rw [(c6_key_precedence [0x70] demoKeyStr (some 5) demoDb ⟨none, none⟩).1]
    rfl
  · rw [(c6_key_precedence [0x70] demoKeyStr (some 5) demoDb
      ⟨none, none⟩).2.1 5 rfl rfl]
    rfl

/-- C7 (confirmed): public-key string loading rejects a missing version
tag, rejects a radix-85 decode failure, rejects a decoded body under 32
bytes with the expected/actual lengths, and otherwise uses exactly the
first 32 decoded bytes. -/
theorem c7_parse_public_key (s : List Nat) :
    (stripVersionTag s = none →
      Encryptor.parse_public_key s = .error .InvalidPublicKey) ∧
    (∀ body, stripVersionTag s = some body →
      (base85Decode body = none →
        Encryptor.parse_public_key s = .error .InvalidPublicKey) ∧
      (∀ bs, base85Decode body = some bs →
        (bs.length < 32 →
          Encryptor.parse_public_key s =
            .error (.PublicKeyTooShort 32 bs.length)) ∧
        (32 ≤ bs.length →
          Encryptor.parse_public_key s = .ok (bs.take 32)))) := by
  constructor
  · intro h
    simp only [Encryptor.parse_public_key]
    rw [h]
  · intro body hb
    constructor
    · intro h
      simp only [Encryptor.parse_public_key]
      rw [hb]
      show (match base85Decode body with
        | none => Except.error EncryptionError.InvalidPublicKey
        | some key_bytes => Encryptor.bytes_to_public_key key_bytes) = _
      rw [h]
    · intro bs hbs
      constructor
      · intro hlt
        simp only [Encryptor.parse_public_key]
        rw [hb]
        show (match base85Decode body with
          | none => Except.error EncryptionError.InvalidPublicKey
          | some key_bytes => Encryptor.bytes_to_public_key key_bytes) = _
        rw [hbs]
        show Encryptor.bytes_to_public_key bs = _
        rw [Encryptor.bytes_to_public_key, if_pos hlt]
      · intro hge
        simp only [Encryptor.parse_public_key]
        rw [hb]
        show (match base85Decode body with
          | none => Except.error EncryptionError.InvalidPublicKey
          | some key_bytes => Encryptor.bytes_to_public_key key_bytes) = _
        rw [hbs]
        show Encryptor.bytes_to_public_key bs = _
        rw [Encryptor.bytes_to_public_key, if_neg (by omega)]

/-- Witness for C7: the demo key string parses to the 32 zero bytes. -/
theorem c7_witness :
    stripVersionTag demoKeyStr = some (List.replicate 40 0x30) ∧
    base85Decode (List.replicate 40 0x30) = some (List.replicate 32 0) ∧
    Encryptor.parse_public_key demoKeyStr = .ok (List.replicate 32 0) := by
  refine ⟨rfl, rfl, ?_⟩
  rw [(((c7_parse_public_key demoKeyStr).2 (List.replicate 40 0x30) rfl).2
    (List.replicate 32 0) rfl).2 (by decide)]
  rfl

/-- C8 (corrected): the cleartext handed to encryption gets password and
the nanosecond timestamp injected when the payload is absent (a fresh
two-field object) or is an object; contrary to the claim, a non-object
payload value passes through unchanged with nothing injected (see
c8_counterexample). -/
theorem c8_payload_injection (pw : List Nat) (t : Nat) (payload : Option Json) :
    (payload = none →
      encrypt_command_cleartext pw t payload =
        .obj (.cons passwordKey (.str pw)
          (.cons timestampKey (.num (t : Int)) .nil))) ∧
    (∀ fs, payload = some (.obj fs) →
      ∃ gs, encrypt_command_cleartext pw t payload = .obj gs ∧
        jLookup gs passwordKey = some (.str pw) ∧
        jLookup gs timestampKey = some (.num (t : Int))) ∧
    (∀ p, payload = some p → (∀ fs, p ≠ .obj fs) →
      encrypt_command_cleartext pw t payload = p) := by
  refine ⟨?_, ?_, ?_⟩
  · intro h
    subst h
    rfl
  · intro fs h
    subst h
    refine ⟨jsonInsert (jsonInsert fs passwordKey (.str pw)) timestampKey
      (.num (t : Int)), rfl, ?_, jLookup_insert_self _ _ _⟩
    rw [jLookup_insert_ne _ _ _ _ (by decide)]
    exact jLookup_insert_self _ _ _
  · intro p h hno
    subst h
    cases p with
    | obj fs => exact absurd rfl (hno fs)
    | null => rfl
    | bool b => rfl
    | num n2 => rfl
    | str s2 => rfl
    | arr l => rfl

/-- Witness for C8: injection into a one-field object payload. -/
theorem c8_witness :
    ∃ gs, encrypt_command_cleartext [0x70] 7
        (some (.obj (.cons [0x6B] (.bool true) .nil))) = .obj gs ∧
      jLookup gs passwordKey = some (.str [0x70]) ∧
      jLookup gs timestampKey = some (.num (7 : Int)) :=
  (c8_payload_injection [0x70] 7
    (some (.obj (.cons [0x6B] (.bool true) .nil)))).2.1
    (.cons [0x6B] (.bool true) .nil) rfl

/-- C8 counterexample: a string payload is passed to encryption unchanged;
no password field exists in the cleartext. -/
theorem c8_counterexample :
    encrypt_command_cleartext [0x70] 7 (some (.str [0x61])) = .str [0x61] ∧
    (match encrypt_command_cleartext [0x70] 7 (some (.str [0x61])) with
      | .obj gs => jLookup gs passwordKey
      | _ => none) = none := ⟨rfl, rfl⟩

/-- C9 (corrected): a zero-length read with the buffer still empty yields
the connection-closed error, never an empty response; but a close after
partial data without the terminator is NOT surfaced as connection-closed -
the partial buffer is decoded and yields a protocol-level framing error
(see c9_counterexample). -/
theorem c9_receive_close (rs : List (List Nat)) :
    Kitty.receive ([] :: rs) =
      some (.error (.Connection .ConnectionClosed)) ∧
    (∀ buf, receiveBuffer rs [] = some buf → buf ≠ [] →
      SUFFIXB.isSuffixOf buf = false →
      ∃ e : ProtocolError, Kitty.receive rs =
        some (.error (.Protocol e))) :=
  ⟨receive_closed_empty rs,
   fun buf h1 h2 h3 => receive_partial_close rs buf h1 h2 h3⟩

/-- Witness for C9 on a concrete read sequence. -/
theorem c9_receive_close_witness :
    Kitty.receive ([] :: [[0x61], []]) =
      some (.error (.Connection .ConnectionClosed)) ∧
    ∃ e : ProtocolError, Kitty.receive [[0x61], []] =
      some (.error (.Protocol e)) :=
  ⟨(c9_receive_close [[0x61], []]).1,
   (c9_receive_close [[0x61], []]).2 [0x61] rfl (by decide) (by decide)⟩

/-- C9 counterexample: the peer closing after one byte and no terminator
makes receive surface a protocol parse error, not connection-closed. -/
theorem c9_counterexample :
    Kitty.receive [[0x61], []] =
      some (.error (.Protocol (.EnvelopeParseError .badPrefix))) ∧
    (match Kitty.receive [[0x61], []] with
      | some (.error (.Connection _)) => true
      | _ => false) = false := ⟨rfl, rfl⟩

/-- C10 (confirmed, implicit): chunking slices the oversized string on raw
byte boundaries and re-decodes each slice lossily, so the valid-UTF-8
string whose three-byte character straddles the 4096 boundary is split
into two chunks whose lossily decoded data fields no longer concatenate
to the original string - the straddling character is silently replaced. -/
theorem c10_lossy_chunk_corruption :
    straddleMsg.into_chunks 0 =
      [mkChunk { straddleMsg with payload := none } (generate_unique_id 0) 0
        (List.replicate 4095 0x61 ++ [0xE2]),
       mkChunk { straddleMsg with payload := none } (generate_unique_id 0) 1
        [0x82, 0xAC],
       endChunk { straddleMsg with payload := none } (generate_unique_id 0)] ∧
    validUtf8 straddleStr = true ∧
    utf8Lossy (List.replicate 4095 0x61 ++ [0xE2]) ++ utf8Lossy [0x82, 0xAC] ≠
      straddleStr := by
  have hlen : MAX_CHUNK_SIZE < straddleStr.length := by
    simp only [straddleStr, List.length_append, List.length_replicate,
      List.length_cons, List.length_nil, MAX_CHUNK_SIZE]
    omega
  refine ⟨?_, ?_, ?_⟩
  · have h2 : straddleStr.length ≤ 2 * MAX_CHUNK_SIZE := by
      simp only [straddleStr, List.length_append, List.length_replicate,
        List.length_cons, List.length_nil, MAX_CHUNK_SIZE]
      omega
    have heq := into_chunks_split straddleMsg dataKey straddleStr .nil 0 rfl hlen
    rw [heq, chunksOf4096_two straddleStr hlen h2]
    have ht : straddleStr.take MAX_CHUNK_SIZE =
        List.replicate 4095 0x61 ++ [0xE2] := by
      show ((List.replicate 4095 0x61 ++ [0xE2]) ++
        [0x82, 0xAC]).take MAX_CHUNK_SIZE = _
      rw [show (MAX_CHUNK_SIZE : Nat) =
        (List.replicate 4095 0x61 ++ [0xE2]).length from by
          simp only [List.length_append, List.length_replicate,
            List.length_cons, List.length_nil, MAX_CHUNK_SIZE]]
      exact List.take_left _ _
    have hd : straddleStr.drop MAX_CHUNK_SIZE = [0x82, 0xAC] := by
      show ((List.replicate 4095 0x61 ++ [0xE2]) ++
        [0x82, 0xAC]).drop MAX_CHUNK_SIZE = _
      rw [show (MAX_CHUNK_SIZE : Nat) =
        (List.replicate 4095 0x61 ++ [0xE2]).length from by
          simp only [List.length_append, List.length_replicate,
            List.length_cons, List.length_nil, MAX_CHUNK_SIZE]]
      exact List.drop_left _ _
    rw [ht, hd]
    rfl
  · rw [show straddleStr = List.replicate 4095 0x61 ++ [0xE2, 0x82, 0xAC] from
      by rw [show straddleStr = (List.replicate 4095 0x61 ++ [0xE2]) ++
        [0x82, 0xAC] from rfl, List.append_assoc]
         rfl]
    rw [validUtf8_append _ _ (validUtf8_of_ascii _ (by
      intro b hb
      rw [List.eq_of_mem_replicate hb]
      omega))]
    rfl
  · intro hcontra
    rw [utf8Lossy_replicate_a 4095 [0xE2],
      show utf8Lossy [0xE2] = replacementBytes from rfl,
      show utf8Lossy [0x82, 0xAC] = replacementBytes ++ replacementBytes
        from rfl] at hcontra
    have hl := congrArg List.length hcontra
    simp only [straddleStr, List.length_append, List.length_replicate,
      List.length_cons, List.length_nil, replacementBytes] at hl
    omega
